import Mathlib

/-!
Verification of the oletools service core (src/oletools_/oletools_.py)
against its natural-language specification.

Python text is modelled as `List Nat` (a Python `str` is a sequence of
Unicode code points, including lone surrogates, which Lean's `Char` cannot
represent) where code-point-level faithfulness matters (the macro
deobfuscator), and as `String`/`List Char` elsewhere (ASCII-scope inputs).
Each definition carries a doc comment naming the Python source it embeds.
-/

/-- Python `str` as a list of Unicode code points. -/
abbrev Codes := List Nat

/-- Code points of a Lean string literal (used to build concrete inputs). -/
def strCodes (s : String) : Codes := s.data.map Char.toNat

/-- ASCII lower-casing of one code point, as performed on the pattern
literals by `re.IGNORECASE` in `Oletools._deobfuscator`
(src/oletools_/oletools_.py lines 1696-1753): an upper-case letter is
shifted to lower case, anything else is unchanged. -/
def lowerCode (c : Nat) : Nat := if 65 ≤ c ∧ c ≤ 90 then c + 32 else c

/-- Decimal digit test for a code point (the regex class `\d` restricted to
ASCII, which is what the byte/str patterns of the source match). -/
def isDigitCode (c : Nat) : Bool := decide (48 ≤ c ∧ c ≤ 57)

/-- Consume a literal pattern word case-insensitively (the `chr`/`chrw`
literal of the `CHR_*` regexes under `re.IGNORECASE`); returns the rest of
the text on success. -/
def matchName : List Nat → Codes → Option Codes
  | [], t => some t
  | _ :: _, [] => none
  | n :: ns, c :: cs => if lowerCode c = n then matchName ns cs else none

/-- Greedy `\d+`-style scan: the maximal leading run of decimal digits and
the remaining text. -/
def takeDigits : Codes → Codes × Codes
  | [] => ([], [])
  | c :: t =>
    if isDigitCode c then
      let p := takeDigits t
      (c :: p.1, p.2)
    else ([], c :: t)

/-- Python `int` on a (non-empty, all-digit) matched group. -/
def digitsToNat (ds : Codes) : Nat := ds.foldl (fun a c => a * 10 + (c - 48)) 0

/-- Consume one expected code point. -/
def expectCode (n : Nat) : Codes → Option Codes
  | [] => none
  | c :: r => if c = n then some r else none

/-- The literal function-name codes of the `CHR_*`/`CHRW_*` regexes
(src/oletools_/oletools_.py lines 336-341): `chr` = [99,104,114], with a
trailing `w` (119) for the wide variants. -/
def chrName (wide : Bool) : List Nat := if wide then [99, 104, 114, 119] else [99, 104, 114]

/-- One attempted match of a `CHR_*` regex at the start of `t`, following
`chr[$]?\((\d+)( sep (\d+))?\)` (src/oletools_/oletools_.py lines 336-341):
the case-insensitive name, an optional `$` (36), `(` (40), the first digit
group, optionally ` <sep> ` and a second digit group, then `)` (41).
Returns the two groups (0 for a missing second group) and the rest of the
text. -/
def chrMatch (wide : Bool) (sep : Option Nat) (t : Codes) : Option ((Nat × Nat) × Codes) :=
  (matchName (chrName wide) t).bind fun t1 =>
  let t2 := if t1.head? = some 36 then t1.tail else t1
  (expectCode 40 t2).bind fun t3 =>
  let p1 := takeDigits t3
  if p1.1 = [] then none else
  match sep with
  | none => (expectCode 41 p1.2).map fun rest => ((digitsToNat p1.1, 0), rest)
  | some s =>
    (expectCode 32 p1.2).bind fun t4 =>
    (expectCode s t4).bind fun t5 =>
    (expectCode 32 t5).bind fun t6 =>
    let p2 := takeDigits t6
    if p2.1 = [] then none else
    (expectCode 41 p2.2).map fun rest => ((digitsToNat p1.1, digitsToNat p2.1), rest)

/-- Replacement of `deobf_chrs_add` (src/oletools_/oletools_.py lines
1688-1694): the double-quoted character at `g1 + g2` when that code point
is at most 255, otherwise the empty string. -/
def deobf_chrs_add (g1 g2 : Nat) : Codes :=
  if g1 + g2 ≤ 255 then [34, g1 + g2, 34] else []

/-- Replacement of `deobf_unichrs_add` (src/oletools_/oletools_.py lines
1698-1708): the double-quoted character at `g1 + g2` when that code point
is at most 0x10FFFF, otherwise the original matched text. -/
def deobf_unichrs_add (g1 g2 : Nat) (matched : Codes) : Codes :=
  if g1 + g2 ≤ 1114111 then [34, g1 + g2, 34] else matched

/-- Replacement of `deobf_chrs_sub` (src/oletools_/oletools_.py lines
1713-1719): the double-quoted character at `g1 - g2` when that (integer)
difference is in [0, 255], otherwise the empty string. -/
def deobf_chrs_sub (g1 g2 : Nat) : Codes :=
  if g2 ≤ g1 ∧ g1 - g2 ≤ 255 then [34, g1 - g2, 34] else []

/-- Replacement of `deobf_unichrs_sub` (src/oletools_/oletools_.py lines
1723-1730): the double-quoted character at `g1 - g2` when that difference
is in [0, 0x10FFFF], otherwise the empty string. -/
def deobf_unichrs_sub (g1 g2 : Nat) : Codes :=
  if g2 ≤ g1 ∧ g1 - g2 ≤ 1114111 then [34, g1 - g2, 34] else []

/-- Replacement of `deobf_chr` (src/oletools_/oletools_.py lines
1734-1740). -/
def deobf_chr (g1 : Nat) : Codes := if g1 ≤ 255 then [34, g1, 34] else []

/-- Replacement of `deobf_unichr` (src/oletools_/oletools_.py lines
1744-1751). -/
def deobf_unichr (g1 : Nat) : Codes := if g1 ≤ 1114111 then [34, g1, 34] else []

/-- One attempted match-and-replace of a `CHR_*` pattern at the start of
`t`: `repl` receives the two groups and the matched text (`m.group(0)`),
as the Python replacement callbacks do. -/
def chrPassTry (wide : Bool) (sep : Option Nat) (repl : Nat → Nat → Codes → Codes)
    (t : Codes) : Option (Codes × Codes) :=
  (chrMatch wide sep t).map fun m => (repl m.1.1 m.1.2 (t.take (t.length - m.2.length)), m.2)

/-- Fuel-indexed left-to-right non-overlapping scan-and-substitute, the
semantics of `re.sub` with a callback for the anchored matchers used here:
at each position either the matcher fires (emit the replacement, continue
after the match) or the head character is kept. The fuel is the text
length; every successful match consumes at least one character, so the
fuel never runs out when started at the length. -/
def reSubF (try_ : Codes → Option (Codes × Codes)) : Nat → Codes → Codes
  | 0, t => t
  | _ + 1, [] => []
  | f + 1, c :: cs =>
    match try_ (c :: cs) with
    | some (repl, rest) => repl ++ reSubF try_ f rest
    | none => c :: reSubF try_ f cs

/-- `re.sub` with a callback (see `reSubF`). -/
def reSub (try_ : Codes → Option (Codes × Codes)) (t : Codes) : Codes :=
  reSubF try_ t.length t

/-- One `re.sub(self.CHR_*_RE, deobf_*, deobf, flags=re.IGNORECASE)` pass
of `Oletools._deobfuscator`. -/
def chrPass (wide : Bool) (sep : Option Nat) (repl : Nat → Nat → Codes → Codes)
    (t : Codes) : Codes :=
  reSub (chrPassTry wide sep repl) t

/-- One attempted match of the literal string-concatenation pattern
`" & "` (codes 34,32,38,32,34) of the final
`re.sub('" & "', "", deobf)` (src/oletools_/oletools_.py line 1756). -/
def tryConcat (t : Codes) : Option (Codes × Codes) :=
  (expectCode 34 t).bind fun a =>
  (expectCode 32 a).bind fun b =>
  (expectCode 38 b).bind fun c =>
  (expectCode 32 c).bind fun d =>
  (expectCode 34 d).map fun rest => (([] : Codes), rest)

/-- `Oletools._deobfuscator` (src/oletools_/oletools_.py lines 1673-1762):
the six `chr`/`chrw` passes in source order (add, wide add, sub, wide sub,
bare, wide bare), then the `" & "` collapse. The surrounding
`try/except` never fires for these total replacements, so it is not
modelled. -/
def deobfuscator (t : Codes) : Codes :=
  let d1 := chrPass false (some 43) (fun a b _ => deobf_chrs_add a b) t
  let d2 := chrPass true (some 43) (fun a b m => deobf_unichrs_add a b m) d1
  let d3 := chrPass false (some 45) (fun a b _ => deobf_chrs_sub a b) d2
  let d4 := chrPass true (some 45) (fun a b _ => deobf_unichrs_sub a b) d3
  let d5 := chrPass false none (fun a _ _ => deobf_chr a) d4
  let d6 := chrPass true none (fun a _ _ => deobf_unichr a) d5
  reSub tryConcat d6

/-- The exact text matched by the binary (`X <sep> Y`) forms of the
`CHR_*` regexes: `chr`/`chrw`, `(`, digits, ` <sep> `, digits, `)`. -/
def chrTextBin (wide : Bool) (s : Nat) (ds1 ds2 : Codes) : Codes :=
  chrName wide ++ 40 :: (ds1 ++ 32 :: s :: 32 :: (ds2 ++ [41]))

/-- The exact text matched by the bare (`chr(X)`) forms of the `CHR_*`
regexes. -/
def chrTextUn (wide : Bool) (ds : Codes) : Codes :=
  chrName wide ++ 40 :: (ds ++ [41])

/-- The `MACRO_WORDS_RE` tokenizer class: an ASCII lower-case letter
(src/oletools_/oletools_.py line 335, pattern `[a-z]3+` applied to the
lower-cased text). -/
def isLowerAlpha (c : Char) : Bool := decide ('a' ≤ c ∧ c ≤ 'z')

/-- Fuel-indexed maximal-run splitter: the list of maximal runs of
characters satisfying `p`, in order (the matches of `p+` under
`re.finditer`). Fuel is the text length. -/
def runsOfF (p : Char → Bool) : Nat → List Char → List (List Char)
  | 0, _ => []
  | _ + 1, [] => []
  | f + 1, c :: t =>
    if p c then (c :: t.takeWhile p) :: runsOfF p f (t.dropWhile p)
    else runsOfF p f t

/-- Maximal runs of characters satisfying `p` (see `runsOfF`). -/
def runsOf (p : Char → Bool) (l : List Char) : List (List Char) :=
  runsOfF p l.length l

/-- The words scored by `Oletools._flag_macro` (src/oletools_/oletools_.py
line 1786): the text is lower-cased, then every match of
`MACRO_WORDS_RE = "[a-z]3+"` is a word, i.e. every maximal run of
lower-case letters of length at least 3. -/
def macroWords (text : List Char) : List (List Char) :=
  (runsOf isLowerAlpha (text.map Char.toLower)).filter (fun w => 3 ≤ w.length)

/-- `MACRO_SKIP_WORDS` (src/oletools_/oletools_.py lines 207-272). -/
def MACRO_SKIP_WORDS : List String :=
  ["var", "unescape", "exec", "for", "while", "array", "object", "length",
   "len", "substr", "substring", "new", "unicode", "name", "base", "dim",
   "set", "public", "end", "getobject", "createobject", "content", "regexp",
   "date", "false", "true", "break", "continue", "ubound", "none",
   "undefined", "activexobject", "document", "attribute", "shell",
   "thisdocument", "rem", "string", "byte", "integer", "int", "function",
   "text", "next", "private", "click", "change", "createtextfile",
   "savetofile", "responsebody", "opentextfile", "resume", "open",
   "environment", "write", "close", "error", "else", "number", "chr",
   "sub", "loop"]

/-- The inner trigraph loop of `Oletools._flag_macro`
(src/oletools_/oletools_.py lines 1792-1798): walking the word with a
one-character prefix, count the overlapping 2-character windows found in
the word-chain table under that prefix. `triCountAux p rest` processes the
word `p :: rest`. -/
def triCountAux (chains : Char → List String) : Char → List Char → Nat
  | _, [] => 0
  | _, [_] => 0
  | p, a :: b :: rest =>
    (if String.mk [a, b] ∈ chains p then 1 else 0) + triCountAux chains a (b :: rest)

/-- `tri_count` for one word (see `triCountAux`). -/
def triCount (chains : Char → List String) : List Char → Nat
  | [] => 0
  | p :: rest => triCountAux chains p rest

/-- `word_count` of `Oletools._flag_macro`: every tokenized word is
counted, including skip-words (the counter is incremented before the skip
test, src/oletools_/oletools_.py lines 1787-1791). -/
def flagWordCount (text : List Char) : Nat := (macroWords text).length

/-- `byte_count` of `Oletools._flag_macro` (src/oletools_/oletools_.py
line 1789). -/
def flagByteCount (text : List Char) : Nat := ((macroWords text).map List.length).sum

/-- The accumulated plausibility `score` of `Oletools._flag_macro`
(src/oletools_/oletools_.py lines 1790-1800): skip-words contribute
nothing, every other word contributes `tri_count / (len(word) - 2)`. -/
def flagScore (chains : Char → List String) (text : List Char) : ℚ :=
  ((macroWords text).filter (fun w => String.mk w ∉ MACRO_SKIP_WORDS)).foldl
    (fun acc w => acc + (triCount chains w : ℚ) / ((w.length : ℚ) - 2)) 0

/-- `Oletools._flag_macro` (src/oletools_/oletools_.py lines 1764-1807):
false when the text exceeds `macro_score_max_size`; otherwise false when
`byte_count < 128 or word_count < 32`; otherwise flags the macro when the
normalized score is strictly below `macro_score_min_alert`. -/
def flag_macro (chains : Char → List String) (macro_score_max_size : Option Nat)
    (macro_score_min_alert : ℚ) (text : List Char) : Bool :=
  if (match macro_score_max_size with | some m => decide (m < text.length) | none => false) then
    false
  else if flagByteCount text < 128 ∨ flagWordCount text < 32 then false
  else decide (flagScore chains text / (flagWordCount text : ℚ) < macro_score_min_alert)

/-- Lower-casing of a string restricted to ASCII, the scope in which it
coincides with Python `str.lower()` as used by the safelist helpers. -/
def strLower (s : String) : String := String.mk (s.data.map Char.toLower)

/-- Does `needle` occur as a contiguous substring of the text (Python's
`needle in hay` for strings)? -/
def hasSub (needle : List Char) : List Char → Bool
  | [] => needle.isEmpty
  | c :: t => needle.isPrefixOf (c :: t) || hasSub needle t

/-- The safelist tables (`safelist.get("match", ...)` /
`safelist.get("regex", ...)`, src/oletools_/oletools_.py lines 377-379):
a mapping from tag type to registered strings, modelled as an association
list (first binding wins, as in a Python dict snapshot). -/
abbrev SafelistTbl := List (String × List String)

/-- `Mapping.get(tag_type, [])` on a safelist table. -/
def getD (tbl : SafelistTbl) (k : String) : List String :=
  match tbl.find? (fun p => p.1 == k) with
  | some p => p.2
  | none => []

/-- `tag_contains_match` (src/oletools_/oletools_.py lines 72-74): the tag
case-insensitively equals one of the match strings. -/
def tag_contains_match (tag : String) (ms : List String) : Bool :=
  ms.any (fun m => strLower m == strLower tag)

/-- One `re.match(regex, tag, re.IGNORECASE)` of `regex_matches_tag`,
modelled for metacharacter-free patterns, for which `re.match` holds
exactly when the pattern is a case-insensitive prefix of the tag
(anchored at the start, unanchored at the end). -/
def reMatchLit (regex tag : String) : Bool :=
  (strLower regex).data.isPrefixOf (strLower tag).data

/-- `regex_matches_tag` (src/oletools_/oletools_.py lines 77-79). -/
def regex_matches_tag (tag : String) (regexes : List String) : Bool :=
  regexes.any (fun r => reMatchLit r tag)

/-- The module-level `is_safelisted` (src/oletools_/oletools_.py lines
82-88): safelisted by an exact case-insensitive match or by a regex
match. -/
def is_safelisted (tag_type tag : String) (safelist_matches safelist_regexes : SafelistTbl) :
    Bool :=
  tag_contains_match tag (getD safelist_matches tag_type)
  || regex_matches_tag tag (getD safelist_regexes tag_type)

/-- The `is_safelisted` reading claimed by the specification, which says
the value matches a regex "case-insensitively and unanchored at the
start": for a literal pattern that is a case-insensitive substring test
instead of the prefix test `re.match` performs. -/
def is_safelisted_spec (tag_type tag : String) (safelist_matches safelist_regexes : SafelistTbl) :
    Bool :=
  tag_contains_match tag (getD safelist_matches tag_type)
  || (getD safelist_regexes tag_type).any
      (fun r => hasSub (strLower r).data (strLower tag).data)

/-- The method `Oletools.is_safelisted` (src/oletools_/oletools_.py lines
394-399): a substring hit of the URI safelist, an exact lower-case hit of
the tag safelist, or the module-level `is_safelisted`. -/
def oletools_is_safelisted (pat_safelist tag_safelist : List String)
    (match_safelist regex_safelist : SafelistTbl) (tag_type tag : String) : Bool :=
  pat_safelist.any (fun s => hasSub s.data tag.data)
  || tag_safelist.contains (strLower tag)
  || is_safelisted tag_type tag match_safelist regex_safelist

/-- `PAT_ENDS` (src/oletools_/oletools_.py line 289). -/
def PAT_ENDS : List String :=
  ["themeManager.xml", "MSO.DLL", "stdole2.tlb", "vbaProject.bin", "VBE6.DLL", "VBE7.DLL"]

/-- One alternative keyword of `EXCEL_BIN_RE` (src/oletools_/oletools_.py
line 302). -/
def EXCEL_BIN_WORDS : List String :=
  ["sheet", "printerSettings", "queryTable", "binaryIndex", "table"]

/-- `re.match(self.EXCEL_BIN_RE, ioc)`: anchored at the start, the value
begins with one of the keywords, then 1 to 12 digits, then `.bin`. With
the greedy bounded `\d` repeat this holds exactly when the maximal digit
run after the keyword has length in [1, 12] and is followed by `.bin`. -/
def excel_bin_match (v : String) : Bool :=
  EXCEL_BIN_WORDS.any (fun w =>
    w.data.isPrefixOf v.data &&
    (let rest := v.data.drop w.data.length
     let ds := rest.takeWhile (fun c => c.isDigit)
     decide (1 ≤ ds.length) && decide (ds.length ≤ 12) &&
     (".bin".data.isPrefixOf (rest.drop ds.length))))

/-- The per-hit filter of `Oletools._check_for_patterns`
(src/oletools_/oletools_.py lines 2160-2168): a raw hit survives unless it
ends with a `PAT_ENDS` suffix, is safelisted for its tag type, or (outside
deep scan) is an Excel `.bin` part name under `file.name.extracted`.
Values are modelled as ASCII strings (`safe_str` is the identity there). -/
def hit_survives (pat_safelist tag_safelist : List String)
    (match_safelist regex_safelist : SafelistTbl) (include_fpos : Bool)
    (tag_type v : String) : Bool :=
  !(PAT_ENDS.any (fun e => e.data.isSuffixOf v.data))
  && !(oletools_is_safelisted pat_safelist tag_safelist match_safelist regex_safelist tag_type v)
  && !(!include_fpos && tag_type == "file.name.extracted" && excel_bin_match v)

/-- The tag map built by `Oletools._check_for_patterns`
(src/oletools_/oletools_.py lines 2145-2170), flattened to (type, value)
pairs: of the raw `ioc_match` hits (an input, the pattern library being an
external collaborator), exactly the surviving ones are kept. -/
def check_for_patterns (hits : List (String × List String))
    (pat_safelist tag_safelist : List String)
    (match_safelist regex_safelist : SafelistTbl) (include_fpos : Bool) :
    List (String × String) :=
  hits.flatMap (fun p =>
    (p.2.filter (fun v =>
      hit_survives pat_safelist tag_safelist match_safelist regex_safelist include_fpos p.1 v)).map
      (fun v => (p.1, v)))

/-- Adding one safelist entry `e` for tag type `t` to a table (the claim's
"single entry added to either table"): the binding for `t` becomes `e`
prepended to the previous list. -/
def addEntry (tbl : SafelistTbl) (t e : String) : SafelistTbl :=
  (t, e :: getD tbl t) :: tbl

/-- The stomping condition of `Oletools._create_macro_sections`
(src/oletools_/oletools_.py line 1649):
`if self.vba_stomping or pcode_matches and pcode_sus and not vba_sus`.
`pcode_matches` is truthy exactly when the p-code match list is
non-empty. -/
def stomping_reported (vba_stomping vba_sus pcode_sus : Bool)
    (pcode_matches : List String) : Bool :=
  vba_stomping || (!pcode_matches.isEmpty && pcode_sus && !vba_sus)

/-- The stomping condition as the claim states it: "the structural flag is
set, or the p-code scan is suspicious while the macro-source scan is not"
(no condition on the p-code match list). -/
def stomping_claimed (vba_stomping vba_sus pcode_sus : Bool) : Bool :=
  vba_stomping || (pcode_sus && !vba_sus)

/-- The stomping evidence diff of `Oletools._create_macro_sections`
(src/oletools_/oletools_.py line 1651): the p-code matched lines not
present in the macro-source matched lines, in order. -/
def stomping_diff (vba_matches pcode_matches : List String) : List String :=
  pcode_matches.filter (fun m => !vba_matches.contains m)

/-- Bytes as a list of values in [0, 256). -/
abbrev Bytes := List Nat

/-- Membership in the `\s` class for bytes patterns
(`re.sub(rb"\s", b"", ...)`): tab, newline, vertical tab, form feed,
carriage return, space. -/
def isSpaceByte (b : Nat) : Bool := b ∈ [9, 10, 11, 12, 13, 32]

/-- The printable filter of `Oletools._check_for_b64`
(src/oletools_/oletools_.py line 2236): `bytes(i for i in data if 31 < i < 127)`. -/
def printableFilter (payload : Bytes) : Bytes :=
  payload.filter (fun i => decide (31 < i ∧ i < 127))

/-- Outcome of one loop iteration of `Oletools._check_for_b64` for one
decoded candidate. -/
inductive B64Action where
  | skipped
  | binaryExtract (payload : Bytes)
  | binaryRejected
  | textReport (ascii : Bytes)
  | textRejected
deriving DecidableEq

/-- One loop iteration of `Oletools._check_for_b64`
(src/oletools_/oletools_.py lines 2216-2243) for one decoded candidate
`payload`, given the already-seen payload set and the MIME classifier
(`magic.Magic(mime=True).from_buffer`, an external collaborator, passed as
a function): skip on duplicate or size outside (30, 8 000 000); above
`MAX_STRINGDUMP_CHARS = 500` bytes extract exactly when the MIME label
contains "octet-stream"; otherwise filter to printable ASCII and report
unless it has at most 6 distinct or at most 14 non-whitespace characters.
The dead UTF-16 decode of lines 2232-2234 is immediately overwritten at
line 2236 and has no observable effect, so it is not modelled. -/
def b64_step (mime : Bytes → String) (seen : List Bytes) (payload : Bytes) : B64Action :=
  if seen.contains payload ∨ ¬(payload.length < 8000000 ∧ 30 < payload.length) then
    .skipped
  else if 500 < payload.length then
    if hasSub "octet-stream".data (mime payload).data then .binaryExtract payload
    else .binaryRejected
  else
    let asc := printableFilter payload
    if asc.dedup.length ≤ 6 ∨ (asc.filter (fun i => !isSpaceByte i)).length ≤ 14 then
      .textRejected
    else .textReport asc

/-- `get_verdict` of `Oletools._check_xml_strings`
(src/oletools_/oletools_.py lines 1978-1983): at least 1000 is Malicious,
at least 500 Suspicious, anything lower Informative. -/
def get_verdict (score : Int) : String :=
  if 1000 ≤ score then "Malicious"
  else if 500 ≤ score then "Suspicious"
  else "Informative"

/-- One step of adjacent grouping by equal verdict: prepend `x` to the
first group when it shares `x`'s verdict, else start a new group. -/
def groupCons (x : Int) : List (List Int) → List (List Int)
  | (y :: g) :: gs =>
    if get_verdict x = get_verdict y then (x :: y :: g) :: gs
    else [x] :: (y :: g) :: gs
  | _ => [[x]]

/-- Adjacent grouping by equal verdict, the semantics of
`itertools.groupby(..., key=lambda x: get_verdict(x[1]))` on the heuristic
scores (src/oletools_/oletools_.py lines 1985-1992). -/
def groupRuns : List Int → List (List Int)
  | [] => []
  | x :: xs => groupCons x (groupRuns xs)

/-- The verdict grouping of processed external links
(src/oletools_/oletools_.py lines 1985-1992): sort the scores descending
(`sorted(..., key=lambda x: x[1].score, reverse=True)`), then group
adjacent equal verdicts. -/
def verdictGroups (scores : List Int) : List (List Int) :=
  groupRuns (List.insertionSort (fun a b : Int => b ≤ a) scores)

/-- `max(heuristics, key=lambda h: h.score)` on one verdict group
(src/oletools_/oletools_.py line 2000), at the level of scores: the
maximal score of the (non-empty) group. -/
def maxScore : List Int → Int
  | [] => 0
  | x :: t => t.foldl max x

/-- The verdict of a (non-empty) group, for stating which verdict a group
belongs to: the verdict of its first member. -/
def groupVerdict (g : List Int) : String := get_verdict (g.headD 0)

/-- The rank of a score's verdict tier (0 = Malicious, 1 = Suspicious,
2 = Informative), used to reason about the descending sort. -/
def vRank (score : Int) : Nat :=
  if 1000 ≤ score then 0 else if 500 ≤ score then 1 else 2

/-- ASCII whitespace as recognized by Python `str.split()` (the scope in
which `parse_uri` inputs are modelled). -/
def isWsChar (c : Char) : Bool := c ∈ [' ', '\t', '\n', '\r', '\x0b', '\x0c']

/-- The first whitespace-delimited token of `check_uri`
(`check_uri.split(maxsplit=1)` then `split[0]`,
src/oletools_/oletools_.py lines 2284-2289); `none` when the input is
empty or all whitespace. -/
def firstToken (s : String) : Option (List Char) :=
  let tk := (s.data.dropWhile isWsChar).takeWhile (fun c => !isWsChar c)
  if tk.isEmpty then none else some tk

/-- A character of `scheme_chars` in `urllib.parse` (letters, digits,
`+`, `-`, `.`). -/
def isSchemeChar (c : Char) : Bool :=
  c.isAlpha || c.isDigit || c ∈ ['+', '-', '.']

/-- Split a character list at the first occurrence of `ch`
(`str.find` / `str.split(ch, 1)`): the part before and the part after, or
`none` when `ch` does not occur. -/
def splitAtChar (ch : Char) : List Char → Option (List Char × List Char)
  | [] => none
  | c :: t =>
    if c = ch then some ([], t)
    else (splitAtChar ch t).map (fun p => (c :: p.1, p.2))

/-- The result type of `urllib.parse.urlsplit`. -/
structure UrlParts where
  scheme : List Char
  netloc : List Char
  path : List Char
  query : List Char
  fragment : List Char
deriving DecidableEq

/-- The two `ValueError` shapes `urlsplit` raises on the inputs modelled
here: the `"Invalid IPv6 URL"` bracket-mismatch error, and the
netloc-invalid-under-NFKC-normalization error (whose message is not
`"Invalid IPv6 URL"`). -/
inductive UrlError where
  | invalidIPv6
  | nfkcNetloc
deriving DecidableEq

/-- Modelled from the spec: the NFKC hazard table of CPython
`urllib.parse._checknetloc` for the non-ASCII characters used in this
development. U+2100 (ACCOUNT OF) normalizes under NFKC to `a/c`, which
contains `/`, so a netloc containing it raises
`ValueError("netloc ... contains invalid characters under NFKC
normalization")`. Characters outside this table are treated as
NFKC-stable (true of all ASCII characters). -/
def nfkcUnsafeChar (c : Char) : Bool := c = '℀'

/-- CPython `urllib.parse._checknetloc`: only a non-ASCII netloc is
checked; it raises when it contains a character whose NFKC normalization
introduces a URL delimiter (see `nfkcUnsafeChar`). Returns true when the
check raises. -/
def checknetlocRaises (netloc : List Char) : Bool :=
  if netloc.all (fun c => c.toNat < 128) then false
  else netloc.any nfkcUnsafeChar

/-- The scheme-splitting step of `urllib.parse.urlsplit`: if the part
before the first `:` is a non-empty ASCII-letter-led run of scheme
characters, it is the (lower-cased) scheme; otherwise there is no
scheme. -/
def schemeSplit (u : List Char) : List Char × List Char :=
  match splitAtChar ':' u with
  | none => ([], u)
  | some (before, after) =>
    match before with
    | [] => ([], u)
    | c0 :: rest =>
      if c0.isAlpha ∧ c0.toNat < 128 ∧ rest.all isSchemeChar then
        ((c0 :: rest).map Char.toLower, after)
      else ([], u)

/-- A netloc/path delimiter (`/`, `?`, `#`) for `_splitnetloc`. -/
def isNetlocEnd (c : Char) : Bool := c ∈ ['/', '?', '#']

/-- Model of `urllib.parse.urlsplit` (CPython) for the inputs `parse_uri`
feeds it (whitespace-free tokens): scheme split; `//`-led netloc split
with the bracket-mismatch `"Invalid IPv6 URL"` error and the
`_checknetloc` error; fragment then query split. -/
def urlsplitE (tok : List Char) : Except UrlError UrlParts := do
  let (scheme, u1) := schemeSplit tok
  let (netloc, u2) :=
    if u1.take 2 = ['/', '/'] then
      ((u1.drop 2).takeWhile (fun c => !isNetlocEnd c),
       (u1.drop 2).dropWhile (fun c => !isNetlocEnd c))
    else ([], u1)
  if ('[' ∈ netloc ∧ ']' ∉ netloc) ∨ (']' ∈ netloc ∧ '[' ∉ netloc) then
    throw .invalidIPv6
  let (u3, fragment) :=
    match splitAtChar '#' u2 with
    | some (a, b) => (a, b)
    | none => (u2, [])
  let (path, query) :=
    match splitAtChar '?' u3 with
    | some (a, b) => (a, b)
    | none => (u3, [])
  if checknetlocRaises netloc then throw .nfkcNetloc
  pure ⟨scheme, netloc, path, query, fragment⟩

/-- The part of the netloc after the last `@`
(`netloc.rpartition('@')[2]`). -/
def afterLastAt (l : List Char) : List Char :=
  ((l.reverse.takeWhile (fun c => c ≠ '@')).reverse)

/-- The `hostname` property of a `SplitResult` (CPython `_hostinfo`):
drop userinfo, take the bracketed host if a `[` is present, else the part
before the first `:`; lower-cased. -/
def hostnameOf (netloc : List Char) : List Char :=
  let hi := afterLastAt netloc
  (if '[' ∈ hi then ((hi.dropWhile (fun c => c ≠ '[')).drop 1).takeWhile (fun c => c ≠ ']')
   else hi.takeWhile (fun c => c ≠ ':')).map Char.toLower

/-- `urllib.parse.urlunsplit` (what `url.geturl()` returns). -/
def urlunsplit (u : UrlParts) : List Char :=
  let p1 :=
    if u.netloc ≠ [] ∨ (u.path ≠ [] ∧ u.path.take 2 = ['/', '/']) then
      '/' :: '/' :: (u.netloc ++
        (if u.path ≠ [] ∧ u.path.head? ≠ some '/' then '/' :: u.path else u.path))
    else u.path
  let p2 := if u.scheme ≠ [] then u.scheme ++ ':' :: p1 else p1
  let p3 := if u.query ≠ [] then p2 ++ '?' :: u.query else p2
  if u.fragment ≠ [] then p3 ++ '#' :: u.fragment else p3

/-- The hostname-character sanity check of `parse_uri`
(src/oletools_/oletools_.py line 2300): `re.match("(?i)[a-z0-9.-]+",
hostname)` holds exactly when the first character of the hostname is a
letter, digit, dot or hyphen. -/
def hostHeadOk (host : List Char) : Bool :=
  match host with
  | [] => false
  | c :: _ => c.isAlpha || c.isDigit || c = '.' || c = '-'

/-- The `url_text` of `parse_uri` (src/oletools_/oletools_.py line 2303),
with Python's conditional-expression precedence: when the path contains a
colon, `scheme + "://" + netloc + path-before-first-colon`; otherwise
`url.geturl()`. -/
def urlTextOf (u : UrlParts) : String :=
  if ':' ∈ u.path then
    String.mk (u.scheme ++ ':' :: '/' :: '/' :: (u.netloc ++ u.path.takeWhile (fun c => c ≠ ':')))
  else String.mk (urlunsplit u)

/-- Dot-separated labels of a hostname (Python `host.split('.')`): the
empty host gives one empty label, and every `.` starts a new label. -/
def splitDots : List Char → List (List Char)
  | [] => [[]]
  | c :: t =>
    if c = '.' then [] :: splitDots t
    else
      match splitDots t with
      | l :: ls => (c :: l) :: ls
      | [] => [[c]]

/-- Modelled from the spec: `assemblyline.common.net.is_valid_domain`
(an external collaborator), "a syntactically valid domain name": at least
two non-empty labels of letters, digits and hyphens, the last (TLD) label
alphabetic of length at least 2. -/
def is_valid_domain (host : List Char) : Bool :=
  let labels := splitDots host
  decide (2 ≤ labels.length)
  && labels.all (fun l => !l.isEmpty && l.all (fun c => c.isAlpha || c.isDigit || c = '-'))
  && (labels.getLastD []).all (fun c => c.isAlpha)
  && decide (2 ≤ (labels.getLastD []).length)

/-- An IPv4 address as four octet values. -/
abbrev IPv4Quad := Nat × Nat × Nat × Nat

/-- One dotted-quad part for `inet_aton`: a non-empty all-digit run of at
most 3 digits, parsed as a decimal value. -/
def atonPart (p : List Char) : Option Nat :=
  if !p.isEmpty ∧ p.all Char.isDigit ∧ p.length ≤ 3 then
    some (p.foldl (fun a c => a * 10 + (c.toNat - 48)) 0)
  else none

/-- Assembly of the four parsed parts into an IPv4 quad, requiring each
octet in range. -/
def atonAssemble : List (Option Nat) → Option IPv4Quad
  | [some a, some b, some c, some d] =>
    if a ≤ 255 ∧ b ≤ 255 ∧ c ≤ 255 ∧ d ≤ 255 then some (a, b, c, d) else none
  | _ => none

/-- Modelled from the spec: `socket.inet_aton` followed by
`IPv4Address(...)`, restricted to the dotted-quad decimal form (the only
form exercised here): four non-empty all-digit parts, each at most
255. -/
def inet_aton (host : List Char) : Option IPv4Quad :=
  atonAssemble ((splitDots host).map atonPart)

/-- The canonical dotted-quad text of an IPv4 address
(`IPv4Address(...).compressed`). -/
def quadStr (q : IPv4Quad) : String :=
  toString q.1 ++ "." ++ toString q.2.1 ++ "." ++ toString q.2.2.1 ++ "." ++ toString q.2.2.2

/-- Modelled from the spec: `assemblyline.common.net.is_valid_ip` on a
compressed dotted quad — all octets in range (always true of a parsed
quad, kept to mirror the source's check). -/
def is_valid_ip (q : IPv4Quad) : Bool :=
  decide (q.1 ≤ 255 ∧ q.2.1 ≤ 255 ∧ q.2.2.1 ≤ 255 ∧ q.2.2.2 ≤ 255)

/-- Modelled from the spec: `assemblyline.common.iprange.is_ip_reserved`
(an external collaborator) — the reserved/private/loopback/link-local/
multicast ranges. Per the spec's own example, the TEST-NET-1 block
192.0.2.0/24 is not reserved, while 127.0.0.0/8 is. -/
def is_ip_reserved (q : IPv4Quad) : Bool :=
  let a := q.1
  let b := q.2.1
  decide (a = 0 ∨ a = 10 ∨ a = 127
    ∨ (a = 100 ∧ 64 ≤ b ∧ b ≤ 127)
    ∨ (a = 169 ∧ b = 254)
    ∨ (a = 172 ∧ 16 ≤ b ∧ b ≤ 31)
    ∨ (a = 192 ∧ b = 168)
    ∨ (a = 198 ∧ (b = 18 ∨ b = 19))
    ∨ 224 ≤ a)

/-- The host-classification tail of `Oletools.parse_uri`
(src/oletools_/oletools_.py lines 2300-2313) applied to a successful
`urlsplit` result: reject when there is no scheme, no hostname, or the
hostname fails the character check; otherwise classify the hostname as a
valid domain, else as a valid non-reserved IPv4 address, else leave the
hostname fields empty. -/
def classifyUrl (u : UrlParts) : String × String × String :=
  let host := hostnameOf u.netloc
  if u.scheme = [] ∨ host = [] ∨ ¬ hostHeadOk host then ("", "", "")
  else
    let url_text := urlTextOf u
    if is_valid_domain host then (url_text, "network.static.domain", String.mk host)
    else
      match inet_aton host with
      | some q =>
        if is_valid_ip q ∧ ¬ is_ip_reserved q then
          (url_text, "network.static.ip", quadStr q)
        else (url_text, "", "")
      | none => (url_text, "", "")

/-- Decidable equality for `Except`, used to evaluate concrete `parse_uri`
results. -/
instance {ε α : Type} [DecidableEq ε] [DecidableEq α] : DecidableEq (Except ε α) := fun x y =>
  match x, y with
  | .ok a, .ok b =>
    if h : a = b then isTrue (by rw [h]) else isFalse (by simp [h])
  | .error a, .error b =>
    if h : a = b then isTrue (by rw [h]) else isFalse (by simp [h])
  | .ok _, .error _ => isFalse (by simp)
  | .error _, .ok _ => isFalse (by simp)

/-- `Oletools.parse_uri` (src/oletools_/oletools_.py lines 2267-2313) on a
string input: take the first whitespace-delimited token (empty input gives
the empty triple); run `urlsplit`, recovering only the
`"Invalid IPv6 URL"` `ValueError` as the empty triple — any other
`ValueError` is re-raised by the bare `raise` at line 2299, which this
model propagates as `Except.error`; then classify (see `classifyUrl`). -/
def parse_uri (s : String) : Except UrlError (String × String × String) :=
  match firstToken s with
  | none => .ok ("", "", "")
  | some tok =>
    match urlsplitE tok with
    | .error .invalidIPv6 => .ok ("", "", "")
    | .error e => .error e
    | .ok url => .ok (classifyUrl url)

/-- `Oletools.parse_uri` on a bytes input: the token must additionally
decode as ASCII (src/oletools_/oletools_.py lines 2287-2292); a non-ASCII
byte yields the empty triple. -/
def parse_uri_bytes (bs : List Nat) : Except UrlError (String × String × String) :=
  let s := String.mk (bs.map Char.ofNat)
  match firstToken s with
  | none => .ok ("", "", "")
  | some tok =>
    if tok.all (fun c => c.toNat < 128) then
      match urlsplitE tok with
      | .error .invalidIPv6 => .ok ("", "", "")
      | .error e => .error e
      | .ok url => .ok (classifyUrl url)
    else .ok ("", "", "")

theorem reSubF_nil (try_ : Codes → Option (Codes × Codes)) (f : Nat) :
    reSubF try_ f [] = [] := by
  cases f <;> rfl

theorem reSub_nil (try_ : Codes → Option (Codes × Codes)) : reSub try_ [] = [] := rfl

theorem reSubF_id (try_ : Codes → Option (Codes × Codes)) :
    ∀ (t : Codes) (f : Nat), (∀ i, try_ (t.drop i) = none) → reSubF try_ f t = t := by
  intro t
  induction t with
  | nil => intro f _; exact reSubF_nil try_ f
  | cons c cs ih =>
    intro f h
    cases f with
    | zero => rfl
    | succ f =>
      have h0 := h 0
      simp only [List.drop_zero] at h0
      simp only [reSubF, h0]
      have : reSubF try_ f cs = cs := by
        refine ih f (fun i => ?_)
        have := h (i + 1)
        simpa using this
      rw [this]

theorem reSub_id (try_ : Codes → Option (Codes × Codes)) (t : Codes)
    (h : ∀ i, try_ (t.drop i) = none) : reSub try_ t = t :=
  reSubF_id try_ t t.length h

theorem chrPassTry_none (w : Bool) (s : Option Nat) (repl : Nat → Nat → Codes → Codes)
    (t : Codes) (h : chrMatch w s t = none) : chrPassTry w s repl t = none := by
  simp [chrPassTry, h]

theorem chrMatch_none_nil (w : Bool) (s : Option Nat) : chrMatch w s [] = none := by
  cases w <;> rfl

theorem chrMatch_none_head (w : Bool) (s : Option Nat) (c : Nat) (t : Codes)
    (h : lowerCode c ≠ 99) : chrMatch w s (c :: t) = none := by
  cases w <;> simp [chrMatch, chrName, matchName, h]

theorem chrMatch_none_head2 (w : Bool) (s : Option Nat) (c1 c2 : Nat) (t : Codes)
    (h : lowerCode c2 ≠ 104) : chrMatch w s (c1 :: c2 :: t) = none := by
  cases w <;> by_cases h1 : lowerCode c1 = 99 <;>
    simp [chrMatch, chrName, matchName, h, h1]

theorem chrMatch_none_all (w : Bool) (s : Option Nat) (u : Codes)
    (h : ∀ c ∈ u, lowerCode c ≠ 99) : chrMatch w s u = none := by
  cases u with
  | nil => exact chrMatch_none_nil w s
  | cons c r => exact chrMatch_none_head w s c r (h c (List.mem_cons_self c r))

theorem chrPass_id (w : Bool) (s : Option Nat) (repl : Nat → Nat → Codes → Codes)
    (t : Codes) (h0 : chrMatch w s t = none)
    (htail : ∀ c ∈ t.tail, lowerCode c ≠ 99) : chrPass w s repl t = t := by
  refine reSub_id _ t (fun i => ?_)
  cases i with
  | zero => exact chrPassTry_none w s repl t (by simpa using h0)
  | succ i =>
    refine chrPassTry_none w s repl _ (chrMatch_none_all w s _ ?_)
    intro c hc
    cases t with
    | nil => simp at hc
    | cons x xs =>
      apply htail
      have : c ∈ xs.drop i := by simpa using hc
      exact List.drop_subset i xs this

theorem chrPass_quoted (w : Bool) (s : Option Nat) (repl : Nat → Nat → Codes → Codes)
    (i : Nat) : chrPass w s repl [34, i, 34] = [34, i, 34] := by
  refine reSub_id _ _ (fun j => ?_)
  match j with
  | 0 =>
    exact chrPassTry_none w s repl _ (chrMatch_none_head w s 34 _ (by decide))
  | 1 =>
    exact chrPassTry_none w s repl _ (chrMatch_none_head2 w s i 34 _ (by decide))
  | 2 =>
    exact chrPassTry_none w s repl _ (chrMatch_none_head w s 34 _ (by decide))
  | j + 3 =>
    have hd : List.drop (j + 3) [34, i, 34] = [] := by simp
    rw [hd]
    exact chrPassTry_none w s repl _ (chrMatch_none_nil w s)

theorem tryConcat_none_head (c : Nat) (t : Codes) (h : c ≠ 34) :
    tryConcat (c :: t) = none := by
  simp [tryConcat, expectCode, h]

theorem tryConcat_nil : tryConcat [] = none := rfl

theorem concat_id (t : Codes) (h : ∀ c ∈ t, c ≠ 34) : reSub tryConcat t = t := by
  refine reSub_id _ t (fun i => ?_)
  cases hd : t.drop i with
  | nil => exact tryConcat_nil
  | cons c r =>
    refine tryConcat_none_head c r (h c ?_)
    exact List.drop_subset i t (hd ▸ List.mem_cons_self c r)

theorem concat_quoted (i : Nat) : reSub tryConcat [34, i, 34] = [34, i, 34] := by
  refine reSub_id _ _ (fun j => ?_)
  match j with
  | 0 =>
    by_cases h : i = 32 <;> simp [tryConcat, expectCode, h]
  | 1 =>
    by_cases h : i = 34 <;> simp [tryConcat, expectCode, h]
  | 2 => simp [tryConcat, expectCode]
  | j + 3 =>
    have hd : List.drop (j + 3) [34, i, 34] = [] := by simp
    rw [hd]
    exact tryConcat_nil

theorem matchName_self (name : List Nat) (rest : Codes)
    (h : ∀ n ∈ name, lowerCode n = n) : matchName name (name ++ rest) = some rest := by
  induction name with
  | nil => rfl
  | cons n ns ih =>
    have hn := h n (List.mem_cons_self n ns)
    simp only [List.cons_append, matchName, hn, if_pos rfl]
    exact ih (fun m hm => h m (List.mem_cons_of_mem n hm))

theorem lowerCode_chrName (w : Bool) : ∀ n ∈ chrName w, lowerCode n = n := by
  cases w <;> decide

theorem takeDigits_append (ds : Codes) (c : Nat) (r : Codes)
    (hds : ∀ x ∈ ds, isDigitCode x = true) (hc : isDigitCode c = false) :
    takeDigits (ds ++ c :: r) = (ds, c :: r) := by
  induction ds with
  | nil => simp [takeDigits, hc]
  | cons d ds' ih =>
    have hd := hds d (List.mem_cons_self d ds')
    have ih' := ih (fun x hx => hds x (List.mem_cons_of_mem d hx))
    simp [takeDigits, hd, ih']

theorem chrPass_single (w : Bool) (s : Option Nat) (repl : Nat → Nat → Codes → Codes)
    (t : Codes) (g1 g2 : Nat) (hm : chrMatch w s t = some ((g1, g2), []))
    (hne : t ≠ []) : chrPass w s repl t = repl g1 g2 t := by
  cases t with
  | nil => exact absurd rfl hne
  | cons c cs =>
    have htry : chrPassTry w s repl (c :: cs) =
        some (repl g1 g2 (c :: cs), []) := by
      simp [chrPassTry, hm]
    simp only [chrPass, reSub, List.length_cons, reSubF, htry]
    simp [reSubF_nil]

theorem digit_lower_ne (c : Nat) (h : isDigitCode c = true) : lowerCode c ≠ 99 := by
  simp [isDigitCode] at h
  rw [lowerCode, if_neg (by omega)]
  omega

theorem digit_ne34 (c : Nat) (h : isDigitCode c = true) : c ≠ 34 := by
  simp [isDigitCode] at h
  omega

theorem chrMatch_bin (w : Bool) (s : Nat) (ds1 ds2 : Codes)
    (h1 : ds1 ≠ []) (h2 : ds2 ≠ [])
    (hd1 : ∀ c ∈ ds1, isDigitCode c = true) (hd2 : ∀ c ∈ ds2, isDigitCode c = true) :
    chrMatch w (some s) (chrTextBin w s ds1 ds2) =
      some ((digitsToNat ds1, digitsToNat ds2), []) := by
  have hm := matchName_self (chrName w) (40 :: (ds1 ++ 32 :: s :: 32 :: (ds2 ++ [41])))
    (lowerCode_chrName w)
  have ht1 := takeDigits_append ds1 32 (s :: 32 :: (ds2 ++ [41])) hd1 (by decide)
  have ht2 := takeDigits_append ds2 41 [] hd2 (by decide)
  simp [chrMatch, chrTextBin, hm, expectCode, ht1, ht2, h1, h2]

theorem chrMatch_un (w : Bool) (ds : Codes) (h : ds ≠ [])
    (hd : ∀ c ∈ ds, isDigitCode c = true) :
    chrMatch w none (chrTextUn w ds) = some ((digitsToNat ds, 0), []) := by
  have hm := matchName_self (chrName w) (40 :: (ds ++ [41])) (lowerCode_chrName w)
  have ht := takeDigits_append ds 41 [] hd (by decide)
  simp [chrMatch, chrTextUn, hm, expectCode, ht, h]

theorem chrMatch_narrow_on_wide (s : Option Nat) (r : Codes) :
    chrMatch false s (chrName true ++ r) = none := rfl

theorem chrMatch_wide_on_narrow (s : Option Nat) (r : Codes) :
    chrMatch true s (chrName false ++ 40 :: r) = none := rfl

theorem chrMatch_sep_mismatch (w : Bool) (a b : Nat) (ds1 ds2 : Codes)
    (hab : b ≠ a) (h1 : ds1 ≠ [])
    (hd1 : ∀ c ∈ ds1, isDigitCode c = true) :
    chrMatch w (some a) (chrTextBin w b ds1 ds2) = none := by
  have hm := matchName_self (chrName w) (40 :: (ds1 ++ 32 :: b :: 32 :: (ds2 ++ [41])))
    (lowerCode_chrName w)
  have ht1 := takeDigits_append ds1 32 (b :: 32 :: (ds2 ++ [41])) hd1 (by decide)
  simp [chrMatch, chrTextBin, hm, expectCode, ht1, h1, hab]

theorem chrMatch_bare_on_bin (w : Bool) (s : Nat) (ds1 ds2 : Codes)
    (h1 : ds1 ≠ []) (hd1 : ∀ c ∈ ds1, isDigitCode c = true) :
    chrMatch w none (chrTextBin w s ds1 ds2) = none := by
  have hm := matchName_self (chrName w) (40 :: (ds1 ++ 32 :: s :: 32 :: (ds2 ++ [41])))
    (lowerCode_chrName w)
  have ht1 := takeDigits_append ds1 32 (s :: 32 :: (ds2 ++ [41])) hd1 (by decide)
  simp [chrMatch, chrTextBin, hm, expectCode, ht1, h1]

theorem chrMatch_sep_on_bare (w : Bool) (s : Nat) (ds : Codes)
    (h : ds ≠ []) (hd : ∀ c ∈ ds, isDigitCode c = true) :
    chrMatch w (some s) (chrTextUn w ds) = none := by
  have hm := matchName_self (chrName w) (40 :: (ds ++ [41])) (lowerCode_chrName w)
  have ht := takeDigits_append ds 41 [] hd (by decide)
  simp [chrMatch, chrTextUn, hm, expectCode, ht, h]

theorem binText_tail_ne (w : Bool) (s : Nat) (ds1 ds2 : Codes)
    (hd1 : ∀ c ∈ ds1, isDigitCode c = true) (hd2 : ∀ c ∈ ds2, isDigitCode c = true)
    (hs : lowerCode s ≠ 99) :
    ∀ c ∈ (chrTextBin w s ds1 ds2).tail, lowerCode c ≠ 99 := by
  intro c hc
  have hmem : c = 104 ∨ c = 114 ∨ c = 119 ∨ c = 40 ∨ c ∈ ds1 ∨ c = 32 ∨ c = s ∨
      c ∈ ds2 ∨ c = 41 := by
    cases w <;> simp [chrTextBin, chrName] at hc <;> tauto
  rcases hmem with rfl | rfl | rfl | rfl | h | rfl | rfl | h | rfl
  · decide
  · decide
  · decide
  · decide
  · exact digit_lower_ne c (hd1 c h)
  · decide
  · exact hs
  · exact digit_lower_ne c (hd2 c h)
  · decide

theorem unText_tail_ne (w : Bool) (ds : Codes)
    (hd : ∀ c ∈ ds, isDigitCode c = true) :
    ∀ c ∈ (chrTextUn w ds).tail, lowerCode c ≠ 99 := by
  intro c hc
  have hmem : c = 104 ∨ c = 114 ∨ c = 119 ∨ c = 40 ∨ c ∈ ds ∨ c = 41 := by
    cases w <;> simp [chrTextUn, chrName] at hc <;> tauto
  rcases hmem with rfl | rfl | rfl | rfl | h | rfl
  · decide
  · decide
  · decide
  · decide
  · exact digit_lower_ne c (hd c h)
  · decide

theorem binText_ne34 (w : Bool) (s : Nat) (ds1 ds2 : Codes)
    (hd1 : ∀ c ∈ ds1, isDigitCode c = true) (hd2 : ∀ c ∈ ds2, isDigitCode c = true)
    (hs : s ≠ 34) :
    ∀ c ∈ chrTextBin w s ds1 ds2, c ≠ 34 := by
  intro c hc
  have hmem : c = 99 ∨ c = 104 ∨ c = 114 ∨ c = 119 ∨ c = 40 ∨ c ∈ ds1 ∨ c = 32 ∨ c = s ∨
      c ∈ ds2 ∨ c = 41 := by
    cases w <;> simp [chrTextBin, chrName] at hc <;> tauto
  rcases hmem with rfl | rfl | rfl | rfl | rfl | h | rfl | rfl | h | rfl
  · decide
  · decide
  · decide
  · decide
  · decide
  · exact digit_ne34 c (hd1 c h)
  · decide
  · exact hs
  · exact digit_ne34 c (hd2 c h)
  · decide

theorem chrMatch_narrow_on_wideBin (s : Option Nat) (b : Nat) (ds1 ds2 : Codes) :
    chrMatch false s (chrTextBin true b ds1 ds2) = none := rfl

theorem chrMatch_narrow_on_wideUn (s : Option Nat) (ds : Codes) :
    chrMatch false s (chrTextUn true ds) = none := rfl

theorem chrMatch_wide_on_narrowBin (s : Option Nat) (b : Nat) (ds1 ds2 : Codes) :
    chrMatch true s (chrTextBin false b ds1 ds2) = none := rfl

theorem chrMatch_wide_on_narrowUn (s : Option Nat) (ds : Codes) :
    chrMatch true s (chrTextUn false ds) = none := rfl

theorem chrPass_nilText (w : Bool) (s : Option Nat) (repl : Nat → Nat → Codes → Codes) :
    chrPass w s repl [] = [] := reSub_nil _

theorem binText_ne_nil (w : Bool) (s : Nat) (ds1 ds2 : Codes) :
    chrTextBin w s ds1 ds2 ≠ [] := by
  cases w <;> simp [chrTextBin, chrName]

theorem unText_ne_nil (w : Bool) (ds : Codes) : chrTextUn w ds ≠ [] := by
  cases w <;> simp [chrTextUn, chrName]

theorem deobf_narrow_add (ds1 ds2 : Codes) (h1 : ds1 ≠ []) (h2 : ds2 ≠ [])
    (hd1 : ∀ c ∈ ds1, isDigitCode c = true) (hd2 : ∀ c ∈ ds2, isDigitCode c = true) :
    deobfuscator (chrTextBin false 43 ds1 ds2) =
      if digitsToNat ds1 + digitsToNat ds2 ≤ 255
      then [34, digitsToNat ds1 + digitsToNat ds2, 34] else [] := by
  have hp1 := chrPass_single false (some 43) (fun a b _ => deobf_chrs_add a b)
    (chrTextBin false 43 ds1 ds2) _ _ (chrMatch_bin false 43 ds1 ds2 h1 h2 hd1 hd2)
    (binText_ne_nil false 43 ds1 ds2)
  simp only [deobfuscator]
  rw [hp1]
  by_cases hv : digitsToNat ds1 + digitsToNat ds2 ≤ 255
  · simp only [deobf_chrs_add, if_pos hv]
    rw [chrPass_quoted, chrPass_quoted, chrPass_quoted, chrPass_quoted, chrPass_quoted,
      concat_quoted]
  · simp only [deobf_chrs_add, if_neg hv]
    rw [chrPass_nilText, chrPass_nilText, chrPass_nilText, chrPass_nilText, chrPass_nilText,
      reSub_nil]

theorem deobf_wide_add (ds1 ds2 : Codes) (h1 : ds1 ≠ []) (h2 : ds2 ≠ [])
    (hd1 : ∀ c ∈ ds1, isDigitCode c = true) (hd2 : ∀ c ∈ ds2, isDigitCode c = true) :
    deobfuscator (chrTextBin true 43 ds1 ds2) =
      if digitsToNat ds1 + digitsToNat ds2 ≤ 1114111
      then [34, digitsToNat ds1 + digitsToNat ds2, 34]
      else chrTextBin true 43 ds1 ds2 := by
  have htail := binText_tail_ne true 43 ds1 ds2 hd1 hd2 (by decide)
  have hp1 := chrPass_id false (some 43) (fun a b _ => deobf_chrs_add a b)
    (chrTextBin true 43 ds1 ds2) (chrMatch_narrow_on_wideBin _ _ _ _) htail
  have hp2 := chrPass_single true (some 43) (fun a b m => deobf_unichrs_add a b m)
    (chrTextBin true 43 ds1 ds2) _ _ (chrMatch_bin true 43 ds1 ds2 h1 h2 hd1 hd2)
    (binText_ne_nil true 43 ds1 ds2)
  simp only [deobfuscator]
  rw [hp1, hp2]
  by_cases hv : digitsToNat ds1 + digitsToNat ds2 ≤ 1114111
  · simp only [deobf_unichrs_add, if_pos hv]
    rw [chrPass_quoted, chrPass_quoted, chrPass_quoted, chrPass_quoted, concat_quoted]
  · simp only [deobf_unichrs_add, if_neg hv]
    have hp3 := chrPass_id false (some 45) (fun a b _ => deobf_chrs_sub a b)
      (chrTextBin true 43 ds1 ds2) (chrMatch_narrow_on_wideBin _ _ _ _) htail
    have hp4 := chrPass_id true (some 45) (fun a b _ => deobf_unichrs_sub a b)
      (chrTextBin true 43 ds1 ds2)
      (chrMatch_sep_mismatch true 45 43 ds1 ds2 (by decide) h1 hd1) htail
    have hp5 := chrPass_id false none (fun a _ _ => deobf_chr a)
      (chrTextBin true 43 ds1 ds2) (chrMatch_narrow_on_wideBin _ _ _ _) htail
    have hp6 := chrPass_id true none (fun a _ _ => deobf_unichr a)
      (chrTextBin true 43 ds1 ds2) (chrMatch_bare_on_bin true 43 ds1 ds2 h1 hd1) htail
    rw [hp3, hp4, hp5, hp6, concat_id _ (binText_ne34 true 43 ds1 ds2 hd1 hd2 (by decide))]

theorem deobf_narrow_sub (ds1 ds2 : Codes) (h1 : ds1 ≠ []) (h2 : ds2 ≠ [])
    (hd1 : ∀ c ∈ ds1, isDigitCode c = true) (hd2 : ∀ c ∈ ds2, isDigitCode c = true) :
    deobfuscator (chrTextBin false 45 ds1 ds2) =
      if digitsToNat ds2 ≤ digitsToNat ds1 ∧ digitsToNat ds1 - digitsToNat ds2 ≤ 255
      then [34, digitsToNat ds1 - digitsToNat ds2, 34] else [] := by
  have htail := binText_tail_ne false 45 ds1 ds2 hd1 hd2 (by decide)
  have hp1 := chrPass_id false (some 43) (fun a b _ => deobf_chrs_add a b)
    (chrTextBin false 45 ds1 ds2)
    (chrMatch_sep_mismatch false 43 45 ds1 ds2 (by decide) h1 hd1) htail
  have hp2 := chrPass_id true (some 43) (fun a b m => deobf_unichrs_add a b m)
    (chrTextBin false 45 ds1 ds2) (chrMatch_wide_on_narrowBin _ _ _ _) htail
  have hp3 := chrPass_single false (some 45) (fun a b _ => deobf_chrs_sub a b)
    (chrTextBin false 45 ds1 ds2) _ _ (chrMatch_bin false 45 ds1 ds2 h1 h2 hd1 hd2)
    (binText_ne_nil false 45 ds1 ds2)
  simp only [deobfuscator]
  rw [hp1, hp2, hp3]
  by_cases hv : digitsToNat ds2 ≤ digitsToNat ds1 ∧ digitsToNat ds1 - digitsToNat ds2 ≤ 255
  · simp only [deobf_chrs_sub, if_pos hv]
    rw [chrPass_quoted, chrPass_quoted, chrPass_quoted, concat_quoted]
  · simp only [deobf_chrs_sub, if_neg hv]
    rw [chrPass_nilText, chrPass_nilText, chrPass_nilText, reSub_nil]

theorem deobf_wide_sub (ds1 ds2 : Codes) (h1 : ds1 ≠ []) (h2 : ds2 ≠ [])
    (hd1 : ∀ c ∈ ds1, isDigitCode c = true) (hd2 : ∀ c ∈ ds2, isDigitCode c = true) :
    deobfuscator (chrTextBin true 45 ds1 ds2) =
      if digitsToNat ds2 ≤ digitsToNat ds1 ∧ digitsToNat ds1 - digitsToNat ds2 ≤ 1114111
      then [34, digitsToNat ds1 - digitsToNat ds2, 34] else [] := by
  have htail := binText_tail_ne true 45 ds1 ds2 hd1 hd2 (by decide)
  have hp1 := chrPass_id false (some 43) (fun a b _ => deobf_chrs_add a b)
    (chrTextBin true 45 ds1 ds2) (chrMatch_narrow_on_wideBin _ _ _ _) htail
  have hp2 := chrPass_id true (some 43) (fun a b m => deobf_unichrs_add a b m)
    (chrTextBin true 45 ds1 ds2)
    (chrMatch_sep_mismatch true 43 45 ds1 ds2 (by decide) h1 hd1) htail
  have hp3 := chrPass_id false (some 45) (fun a b _ => deobf_chrs_sub a b)
    (chrTextBin true 45 ds1 ds2) (chrMatch_narrow_on_wideBin _ _ _ _) htail
  have hp4 := chrPass_single true (some 45) (fun a b _ => deobf_unichrs_sub a b)
    (chrTextBin true 45 ds1 ds2) _ _ (chrMatch_bin true 45 ds1 ds2 h1 h2 hd1 hd2)
    (binText_ne_nil true 45 ds1 ds2)
  simp only [deobfuscator]
  rw [hp1, hp2, hp3, hp4]
  by_cases hv : digitsToNat ds2 ≤ digitsToNat ds1 ∧
      digitsToNat ds1 - digitsToNat ds2 ≤ 1114111
  · simp only [deobf_unichrs_sub, if_pos hv]
    rw [chrPass_quoted, chrPass_quoted, concat_quoted]
  · simp only [deobf_unichrs_sub, if_neg hv]
    rw [chrPass_nilText, chrPass_nilText, reSub_nil]

theorem deobf_narrow_bare (ds : Codes) (h : ds ≠ [])
    (hd : ∀ c ∈ ds, isDigitCode c = true) :
    deobfuscator (chrTextUn false ds) =
      if digitsToNat ds ≤ 255 then [34, digitsToNat ds, 34] else [] := by
  have htail := unText_tail_ne false ds hd
  have hp1 := chrPass_id false (some 43) (fun a b _ => deobf_chrs_add a b)
    (chrTextUn false ds) (chrMatch_sep_on_bare false 43 ds h hd) htail
  have hp2 := chrPass_id true (some 43) (fun a b m => deobf_unichrs_add a b m)
    (chrTextUn false ds) (chrMatch_wide_on_narrowUn _ _) htail
  have hp3 := chrPass_id false (some 45) (fun a b _ => deobf_chrs_sub a b)
    (chrTextUn false ds) (chrMatch_sep_on_bare false 45 ds h hd) htail
  have hp4 := chrPass_id true (some 45) (fun a b _ => deobf_unichrs_sub a b)
    (chrTextUn false ds) (chrMatch_wide_on_narrowUn _ _) htail
  have hp5 := chrPass_single false none (fun a _ _ => deobf_chr a)
    (chrTextUn false ds) _ _ (chrMatch_un false ds h hd) (unText_ne_nil false ds)
  simp only [deobfuscator]
  rw [hp1, hp2, hp3, hp4, hp5]
  by_cases hv : digitsToNat ds ≤ 255
  · simp only [deobf_chr, if_pos hv]
    rw [chrPass_quoted, concat_quoted]
  · simp only [deobf_chr, if_neg hv]
    rw [chrPass_nilText, reSub_nil]

theorem deobf_wide_bare (ds : Codes) (h : ds ≠ [])
    (hd : ∀ c ∈ ds, isDigitCode c = true) :
    deobfuscator (chrTextUn true ds) =
      if digitsToNat ds ≤ 1114111 then [34, digitsToNat ds, 34] else [] := by
  have htail := unText_tail_ne true ds hd
  have hp1 := chrPass_id false (some 43) (fun a b _ => deobf_chrs_add a b)
    (chrTextUn true ds) (chrMatch_narrow_on_wideUn _ _) htail
  have hp2 := chrPass_id true (some 43) (fun a b m => deobf_unichrs_add a b m)
    (chrTextUn true ds) (chrMatch_sep_on_bare true 43 ds h hd) htail
  have hp3 := chrPass_id false (some 45) (fun a b _ => deobf_chrs_sub a b)
    (chrTextUn true ds) (chrMatch_narrow_on_wideUn _ _) htail
  have hp4 := chrPass_id true (some 45) (fun a b _ => deobf_unichrs_sub a b)
    (chrTextUn true ds) (chrMatch_sep_on_bare true 45 ds h hd) htail
  have hp5 := chrPass_id false none (fun a _ _ => deobf_chr a)
    (chrTextUn true ds) (chrMatch_narrow_on_wideUn _ _) htail
  have hp6 := chrPass_single true none (fun a _ _ => deobf_unichr a)
    (chrTextUn true ds) _ _ (chrMatch_un true ds h hd) (unText_ne_nil true ds)
  simp only [deobfuscator]
  rw [hp1, hp2, hp3, hp4, hp5, hp6]
  by_cases hv : digitsToNat ds ≤ 1114111
  · simp only [deobf_unichr, if_pos hv]
    rw [concat_quoted]
  · simp only [deobf_unichr, if_neg hv]
    rw [reSub_nil]

/-- C3: the deobfuscator replaces `chr(X + Y)` and `chr(X - Y)` (and the
`chrw` variants) by the double-quoted character at code point X+Y or X-Y
exactly when that code point is in [0, 255] for the narrow forms and
[0, 0x10FFFF] for the wide forms; an out-of-range result becomes the empty
string for the narrow add and sub forms while the wide-add form keeps the
original matched text; in particular deobfuscating `chr(104 + 1)` yields
`"i"` and deobfuscating `chr(300)` yields the empty string. -/
theorem C3_deobfuscator_chr_ranges :
    (∀ ds1 ds2 : Codes, ds1 ≠ [] → ds2 ≠ [] →
      (∀ c ∈ ds1, isDigitCode c = true) → (∀ c ∈ ds2, isDigitCode c = true) →
      (deobfuscator (chrTextBin false 43 ds1 ds2) =
        if digitsToNat ds1 + digitsToNat ds2 ≤ 255
        then [34, digitsToNat ds1 + digitsToNat ds2, 34] else [])
      ∧ (deobfuscator (chrTextBin true 43 ds1 ds2) =
        if digitsToNat ds1 + digitsToNat ds2 ≤ 1114111
        then [34, digitsToNat ds1 + digitsToNat ds2, 34]
        else chrTextBin true 43 ds1 ds2)
      ∧ (deobfuscator (chrTextBin false 45 ds1 ds2) =
        if digitsToNat ds2 ≤ digitsToNat ds1 ∧ digitsToNat ds1 - digitsToNat ds2 ≤ 255
        then [34, digitsToNat ds1 - digitsToNat ds2, 34] else [])
      ∧ (deobfuscator (chrTextBin true 45 ds1 ds2) =
        if digitsToNat ds2 ≤ digitsToNat ds1 ∧ digitsToNat ds1 - digitsToNat ds2 ≤ 1114111
        then [34, digitsToNat ds1 - digitsToNat ds2, 34] else []))
    ∧ (∀ ds : Codes, ds ≠ [] → (∀ c ∈ ds, isDigitCode c = true) →
      (deobfuscator (chrTextUn false ds) =
        if digitsToNat ds ≤ 255 then [34, digitsToNat ds, 34] else [])
      ∧ (deobfuscator (chrTextUn true ds) =
        if digitsToNat ds ≤ 1114111 then [34, digitsToNat ds, 34] else []))
    ∧ deobfuscator (strCodes "chr(104 + 1)") = strCodes "\"i\""
    ∧ deobfuscator (strCodes "chr(300)") = [] := by
  refine ⟨fun ds1 ds2 h1 h2 hd1 hd2 => ⟨?_, ?_, ?_, ?_⟩,
    fun ds h hd => ⟨?_, ?_⟩, ?_, ?_⟩
  · exact deobf_narrow_add ds1 ds2 h1 h2 hd1 hd2
  · exact deobf_wide_add ds1 ds2 h1 h2 hd1 hd2
  · exact deobf_narrow_sub ds1 ds2 h1 h2 hd1 hd2
  · exact deobf_wide_sub ds1 ds2 h1 h2 hd1 hd2
  · exact deobf_narrow_bare ds h hd
  · exact deobf_wide_bare ds h hd
  · decide
  · decide

/-- Witness for C3 at concrete inputs: the digit strings `104` and `1`
for the narrow add form and `70000` and `1` for the wide add form. -/
theorem C3_deobfuscator_chr_ranges_witness :
    deobfuscator (chrTextBin false 43 [49, 48, 52] [49]) = [34, 105, 34] ∧
    deobfuscator (chrTextBin true 43 [55, 48, 48, 48, 48] [49]) = [34, 70001, 34] := by
  constructor
  · exact ((C3_deobfuscator_chr_ranges.1 [49, 48, 52] [49] (by decide) (by decide)
      (by decide) (by decide)).1).trans (by decide)
  · exact ((C3_deobfuscator_chr_ranges.1 [55, 48, 48, 48, 48] [49] (by decide) (by decide)
      (by decide) (by decide)).2.1).trans (by decide)

/-- Counterexample for C4: deobfuscating `"abc" & "def"` does not return
`"abc""def"` as claimed — the five-character pattern `" & "` that the
source removes includes the two adjacent quotes, so the two literals are
merged. -/
theorem C4_concat_counterexample :
    deobfuscator (strCodes "\"abc\" & \"def\"") ≠ strCodes "\"abc\"\"def\"" := by
  decide

/-- C4 (amended): the deobfuscator collapses the literal concatenation
idiom `" & "` joining two adjacent string literals into nothing, merging
them into one literal: deobfuscating `"abc" & "def"` returns
`"abcdef"`. -/
theorem C4_concat_collapse :
    deobfuscator (strCodes "\"abc\" & \"def\"") = strCodes "\"abcdef\"" := by
  decide

/-- Counterexample for C2: with the p-code scan suspicious but its match
list empty, the macro-source scan not suspicious and the structural flag
clear, the claim's condition holds but the code does not report stomping
(the code additionally requires a non-empty p-code match list). -/
theorem C2_stomping_counterexample :
    stomping_reported false false true [] = false ∧
    stomping_claimed false false true = true := by
  decide

/-- C2 (amended): stomping is reported exactly when the structural flag is
set, or the p-code scan is suspicious with at least one matched line while
the macro-source scan is not; when reported, the diff shown is the set of
p-code matched lines not present in the macro-source matched lines. In
particular, with macro-source evidence empty, p-code evidence
`Shell(...)`, and structural flag false, stomping is reported with diff
`Shell(...)`. -/
theorem C2_stomping_reported :
    (∀ (flag vs ps : Bool) (pm : List String), pm ≠ [] →
      stomping_reported flag vs ps pm = stomping_claimed flag vs ps)
    ∧ (∀ (flag vs ps : Bool),
      stomping_reported flag vs ps [] = (flag || (false && ps && !vs)))
    ∧ (∀ (vm pm : List String),
      stomping_diff vm pm = pm.filter (fun m => !vm.contains m))
    ∧ stomping_reported false false true ["Shell(...)"] = true
    ∧ stomping_diff [] ["Shell(...)"] = ["Shell(...)"] := by
  refine ⟨?_, ?_, fun vm pm => rfl, by decide, by decide⟩
  · intro flag vs ps pm hpm
    cases pm with
    | nil => exact absurd rfl hpm
    | cons a t => simp [stomping_reported, stomping_claimed]
  · intro flag vs ps
    simp [stomping_reported]

/-- Witness for C2 (amended) at a concrete input. -/
theorem C2_stomping_reported_witness :
    stomping_reported true true false ["x"] = stomping_claimed true true false :=
  C2_stomping_reported.1 true true false ["x"] (by decide)

/-- Counterexample for C5: with the regex table registering the literal
pattern `foo` for tag type `t`, the value `xfoo` matches `foo`
case-insensitively when the match is unanchored at the start (as the claim
says), but `is_safelisted` uses `re.match`, which anchors at the start, so
the value is not safelisted. -/
theorem C5_safelist_counterexample :
    is_safelisted "t" "xfoo" [] [("t", ["foo"])] = false ∧
    is_safelisted_spec "t" "xfoo" [] [("t", ["foo"])] = true := by
  decide

/-- C5 (amended): `is_safelisted(tag_type, value)` returns true if and
only if the value case-insensitively equals one of the literal strings
registered for that tag type, or the value matches one of the (literal)
regex patterns registered for that tag type case-insensitively, anchored
at the start and unanchored at the end (a case-insensitive prefix). -/
theorem C5_is_safelisted_characterization :
    ∀ (ty v : String) (M R : SafelistTbl),
      is_safelisted ty v M R = true ↔
        ((∃ m ∈ getD M ty, strLower m = strLower v)
         ∨ (∃ r ∈ getD R ty, (strLower r).data.isPrefixOf (strLower v).data = true)) := by
  intro ty v M R
  simp [is_safelisted, tag_contains_match, regex_matches_tag, reMatchLit,
    List.any_eq_true, beq_iff_eq]

/-- Witness for C5 (amended) at a concrete input: an exact
case-insensitive match safelists the value. -/
theorem C5_is_safelisted_characterization_witness :
    is_safelisted "network.static.domain" "Example.COM"
      [("network.static.domain", ["example.com"])] [] = true :=
  (C5_is_safelisted_characterization "network.static.domain" "Example.COM"
    [("network.static.domain", ["example.com"])] []).mpr
    (Or.inl ⟨"example.com", by decide, by decide⟩)

/-- C10: the macro randomness scorer never divides by zero: every scored
word has length at least 3, so the per-word denominator `len(word) - 2` is
at least 1; and the final division by `word_count` happens only after the
guard has established `word_count` is at least 32 (in particular a text
with fewer than 32 words is never flagged). -/
theorem C10_flag_macro_no_div_zero :
    ∀ (chains : Char → List String) (maxSize : Option Nat) (minAlert : ℚ) (t : List Char),
      (∀ w ∈ macroWords t, 3 ≤ w.length ∧ (1 : ℚ) ≤ (w.length : ℚ) - 2)
      ∧ (¬(flagByteCount t < 128 ∨ flagWordCount t < 32) → 0 < (flagWordCount t : ℚ))
      ∧ (flagWordCount t < 32 → flag_macro chains maxSize minAlert t = false) := by
  intro chains maxSize minAlert t
  refine ⟨fun w hw => ?_, fun h => ?_, fun h => ?_⟩
  · have h3 : 3 ≤ w.length := by
      have := (List.mem_filter.mp hw).2
      simpa using this
    refine ⟨h3, ?_⟩
    have h3q : (3 : ℚ) ≤ (w.length : ℚ) := by exact_mod_cast h3
    linarith
  · push_neg at h
    have h32 : 32 ≤ flagWordCount t := h.2
    have : (32 : ℚ) ≤ (flagWordCount t : ℚ) := by exact_mod_cast h32
    linarith
  · rw [ flag_macro.eq_def]
    split
    · rfl
    · rw [if_pos (Or.inr h)]

/-- Witness for C10 at concrete inputs: a three-letter word's denominator
bound, and a two-word text that is below the guard and hence not
flagged. -/
theorem C10_flag_macro_no_div_zero_witness :
    (3 ≤ "abc".data.length ∧ (1 : ℚ) ≤ ("abc".data.length : ℚ) - 2)
    ∧ flag_macro (fun _ => []) none 0 "ab cd".data = false :=
  ⟨(C10_flag_macro_no_div_zero (fun _ => []) none 0 "abc".data).1 "abc".data (by decide),
   (C10_flag_macro_no_div_zero (fun _ => []) none 0 "ab cd".data).2.2 (by decide)⟩

/-- C7: in base64 recovery, a decoded candidate is processed only when it
is not a duplicate and its size is strictly between 30 and 8 000 000
bytes; a payload larger than 500 bytes is extracted as a binary candidate
exactly when its MIME classification contains `octet-stream`; a payload of
at most 500 bytes is filtered to printable ASCII and reported exactly when
the filtered result has at least 7 distinct characters and at least 15
non-whitespace characters. -/
theorem C7_b64_gates :
    ∀ (mime : Bytes → String) (seen : List Bytes) (payload : Bytes),
      (b64_step mime seen payload ≠ .skipped ↔
        (seen.contains payload = false ∧ 30 < payload.length ∧ payload.length < 8000000))
      ∧ (500 < payload.length →
          (b64_step mime seen payload = .binaryExtract payload ↔
            (seen.contains payload = false ∧ payload.length < 8000000 ∧
             hasSub "octet-stream".data (mime payload).data = true)))
      ∧ (payload.length ≤ 500 →
          (b64_step mime seen payload = .textReport (printableFilter payload) ↔
            (seen.contains payload = false ∧ 30 < payload.length ∧
             7 ≤ (printableFilter payload).dedup.length ∧
             15 ≤ ((printableFilter payload).filter (fun i => !isSpaceByte i)).length))) := by
  intro mime seen payload
  by_cases hS : (seen.contains payload = true ∨
      ¬(payload.length < 8000000 ∧ 30 < payload.length))
  · have hA : b64_step mime seen payload = .skipped := by
      simp only [b64_step]
      rw [if_pos hS]
    have hR : ¬(seen.contains payload = false ∧ 30 < payload.length ∧
        payload.length < 8000000) := by
      rintro ⟨hc, h30, h8⟩
      rcases hS with h | h
      · rw [hc] at h; cases h
      · exact h ⟨h8, h30⟩
    refine ⟨?_, ?_, ?_⟩
    · rw [hA]
      simp only [ne_eq, not_true_eq_false, false_iff]
      exact hR
    · intro _
      rw [hA]
      constructor
      · intro h; cases h
      · rintro ⟨hc, h8, _⟩
        exfalso
        rcases hS with h | h
        · rw [hc] at h; cases h
        · exact hR ⟨hc, by omega, h8⟩
    · intro _
      rw [hA]
      constructor
      · intro h; cases h
      · rintro ⟨hc, h30, _, _⟩
        exfalso
        rcases hS with h | h
        · rw [hc] at h; cases h
        · refine hR ⟨hc, h30, ?_⟩
          omega
  · push_neg at hS
    obtain ⟨hct, hsz⟩ := hS
    have hc : seen.contains payload = false := by
      cases hcp : seen.contains payload
      · rfl
      · exact absurd hcp hct
    have h8 : payload.length < 8000000 := hsz.1
    have h30 : 30 < payload.length := hsz.2
    have hS' : ¬(seen.contains payload = true ∨
        ¬(payload.length < 8000000 ∧ 30 < payload.length)) := by
      push_neg
      exact ⟨hct, h8, h30⟩
    by_cases h5 : 500 < payload.length
    · by_cases hm : hasSub "octet-stream".data (mime payload).data = true
      · have hB : b64_step mime seen payload = .binaryExtract payload := by
          simp only [b64_step]
          rw [if_neg hS', if_pos h5, if_pos hm]
        refine ⟨?_, fun _ => ?_, fun h500 => absurd h5 (by omega)⟩
        · rw [hB]
          simp only [ne_eq]
          exact iff_of_true (by intro h; cases h) ⟨hc, h30, h8⟩
        · rw [hB]
          exact iff_of_true rfl ⟨hc, h8, hm⟩
      · have hC : b64_step mime seen payload = .binaryRejected := by
          simp only [b64_step]
          rw [if_neg hS', if_pos h5, if_neg hm]
        refine ⟨?_, fun _ => ?_, fun h500 => absurd h5 (by omega)⟩
        · rw [hC]
          simp only [ne_eq]
          exact iff_of_true (by intro h; cases h) ⟨hc, h30, h8⟩
        · rw [hC]
          exact iff_of_false (by intro h; cases h) (fun ⟨_, _, hmm⟩ => hm hmm)
    · by_cases hlow : ((printableFilter payload).dedup.length ≤ 6 ∨
          ((printableFilter payload).filter (fun i => !isSpaceByte i)).length ≤ 14)
      · have hD : b64_step mime seen payload = .textRejected := by
          simp only [b64_step]
          rw [if_neg hS', if_neg h5, if_pos hlow]
        refine ⟨?_, fun h500 => absurd h500 h5, fun _ => ?_⟩
        · rw [hD]
          simp only [ne_eq]
          exact iff_of_true (by intro h; cases h) ⟨hc, h30, h8⟩
        · rw [hD]
          refine iff_of_false (by intro h; cases h) ?_
          rintro ⟨_, _, h7, h15⟩
          rcases hlow with h | h
          · omega
          · omega
      · have hE : b64_step mime seen payload = .textReport (printableFilter payload) := by
          simp only [b64_step]
          rw [if_neg hS', if_neg h5, if_neg hlow]
        push_neg at hlow
        refine ⟨?_, fun h500 => absurd h500 h5, fun _ => ?_⟩
        · rw [hE]
          simp only [ne_eq]
          exact iff_of_true (by intro h; cases h) ⟨hc, h30, h8⟩
        · rw [hE]
          exact iff_of_true rfl ⟨hc, h30, by omega, by omega⟩

/-- Witness for C7 at a concrete input: a 501-byte payload classified as
octet-stream is extracted as a binary candidate. -/
theorem C7_b64_gates_witness :
    b64_step (fun _ => "application/octet-stream") [] (List.replicate 501 65) =
      .binaryExtract (List.replicate 501 65) := by
  have hlen : (List.replicate 501 (65 : Nat)).length = 501 := List.length_replicate 501 65
  exact ((C7_b64_gates (fun _ => "application/octet-stream") [] (List.replicate 501 65)).2.1
    (by rw [hlen]; omega)).mpr ⟨rfl, by rw [hlen]; omega, by decide⟩

theorem getD_addEntry (tbl : SafelistTbl) (t0 e ty : String) :
    getD (addEntry tbl t0 e) ty = if t0 = ty then e :: getD tbl t0 else getD tbl ty := by
  by_cases h : t0 = ty
  · simp [addEntry, getD, List.find?, h]
  · simp [addEntry, getD, List.find?, beq_eq_false_iff_ne.mpr h, h]

theorem getD_subset_addEntry (tbl : SafelistTbl) (t0 e ty : String) :
    getD tbl ty ⊆ getD (addEntry tbl t0 e) ty := by
  rw [getD_addEntry]
  by_cases h : t0 = ty
  · rw [if_pos h, h]
    exact List.subset_cons_self e _
  · rw [if_neg h]
    exact List.Subset.refl _

theorem tag_contains_match_mono (tag : String) (ms ms' : List String)
    (hsub : ms ⊆ ms') (h : tag_contains_match tag ms = true) :
    tag_contains_match tag ms' = true := by
  rw [tag_contains_match, List.any_eq_true] at h ⊢
  obtain ⟨m, hm, he⟩ := h
  exact ⟨m, hsub hm, he⟩

theorem regex_matches_tag_mono (tag : String) (rs rs' : List String)
    (hsub : rs ⊆ rs') (h : regex_matches_tag tag rs = true) :
    regex_matches_tag tag rs' = true := by
  rw [regex_matches_tag, List.any_eq_true] at h ⊢
  obtain ⟨r, hr, he⟩ := h
  exact ⟨r, hsub hr, he⟩

theorem is_safelisted_mono (ty v : String) (M M' R R' : SafelistTbl)
    (hM : ∀ t, getD M t ⊆ getD M' t) (hR : ∀ t, getD R t ⊆ getD R' t)
    (h : is_safelisted ty v M R = true) : is_safelisted ty v M' R' = true := by
  rw [is_safelisted, Bool.or_eq_true] at h ⊢
  rcases h with h | h
  · exact Or.inl (tag_contains_match_mono v _ _ (hM ty) h)
  · exact Or.inr (regex_matches_tag_mono v _ _ (hR ty) h)

theorem oletools_is_safelisted_mono (pat tagl : List String) (M M' R R' : SafelistTbl)
    (hM : ∀ t, getD M t ⊆ getD M' t) (hR : ∀ t, getD R t ⊆ getD R' t) (ty v : String)
    (h : oletools_is_safelisted pat tagl M R ty v = true) :
    oletools_is_safelisted pat tagl M' R' ty v = true := by
  rw [oletools_is_safelisted, Bool.or_eq_true, Bool.or_eq_true] at h ⊢
  rcases h with (h | h) | h
  · exact Or.inl (Or.inl h)
  · exact Or.inl (Or.inr h)
  · exact Or.inr (is_safelisted_mono ty v M M' R R' hM hR h)

theorem hit_survives_anti (pat tagl : List String) (M M' R R' : SafelistTbl)
    (hM : ∀ t, getD M t ⊆ getD M' t) (hR : ∀ t, getD R t ⊆ getD R' t)
    (fpos : Bool) (ty v : String)
    (h : hit_survives pat tagl M' R' fpos ty v = true) :
    hit_survives pat tagl M R fpos ty v = true := by
  rw [hit_survives, Bool.and_eq_true, Bool.and_eq_true] at h ⊢
  refine ⟨⟨h.1.1, ?_⟩, h.2⟩
  rw [Bool.not_eq_true']
  cases hsl : oletools_is_safelisted pat tagl M R ty v
  · rfl
  · have h2 := h.1.2
    rw [oletools_is_safelisted_mono pat tagl M M' R R' hM hR ty v hsl] at h2
    simp at h2

theorem mem_check_for_patterns (hits : List (String × List String))
    (pat tagl : List String) (M R : SafelistTbl) (fpos : Bool) (ty v : String) :
    (ty, v) ∈ check_for_patterns hits pat tagl M R fpos ↔
      ∃ vs, (ty, vs) ∈ hits ∧ v ∈ vs ∧ hit_survives pat tagl M R fpos ty v = true := by
  rw [check_for_patterns, List.mem_flatMap]
  constructor
  · rintro ⟨p, hp, hv⟩
    rw [List.mem_map] at hv
    obtain ⟨v0, hv0, heq⟩ := hv
    rw [List.mem_filter] at hv0
    obtain ⟨he1, he2⟩ := Prod.mk.injEq .. ▸ heq
    cases heq
    exact ⟨p.2, by simpa using hp, hv0.1, hv0.2⟩
  · rintro ⟨vs, hin, hv, hs⟩
    refine ⟨(ty, vs), hin, ?_⟩
    rw [List.mem_map]
    exact ⟨v, List.mem_filter.mpr ⟨hv, hs⟩, rfl⟩

/-- C6: safelisting is monotonic over the IOC pattern match: for every raw
hit set, safelist state, and single entry added to either the exact-match
or the regex safelist table, every (tag type, value) pair reported under
the enlarged safelist is also reported under the original safelist —
adding a safelist entry can only remove tags, never add one. -/
theorem C6_safelist_monotonic :
    ∀ (hits : List (String × List String)) (pat tagl : List String)
      (M R : SafelistTbl) (t0 e : String) (fpos : Bool) (ty v : String),
      ((ty, v) ∈ check_for_patterns hits pat tagl (addEntry M t0 e) R fpos →
        (ty, v) ∈ check_for_patterns hits pat tagl M R fpos)
      ∧ ((ty, v) ∈ check_for_patterns hits pat tagl M (addEntry R t0 e) fpos →
        (ty, v) ∈ check_for_patterns hits pat tagl M R fpos) := by
  intro hits pat tagl M R t0 e fpos ty v
  constructor
  · intro h
    rw [mem_check_for_patterns] at h ⊢
    obtain ⟨vs, hin, hv, hs⟩ := h
    exact ⟨vs, hin, hv, hit_survives_anti pat tagl M (addEntry M t0 e) R R
      (fun t => getD_subset_addEntry M t0 e t) (fun t => List.Subset.refl _) fpos ty v hs⟩
  · intro h
    rw [mem_check_for_patterns] at h ⊢
    obtain ⟨vs, hin, hv, hs⟩ := h
    exact ⟨vs, hin, hv, hit_survives_anti pat tagl M M R (addEntry R t0 e)
      (fun t => List.Subset.refl _) (fun t => getD_subset_addEntry R t0 e t) fpos ty v hs⟩

/-- Witness for C6 at a concrete input: with one raw domain hit list, the
value not covered by the added safelist entry is still reported under the
original safelist. -/
theorem C6_safelist_monotonic_witness :
    ("network.static.domain", "bad.com") ∈
      check_for_patterns [("network.static.domain", ["good.com", "bad.com"])]
        [] [] [] [] false :=
  (C6_safelist_monotonic [("network.static.domain", ["good.com", "bad.com"])]
    [] [] [] [] "network.static.domain" "good.com" false
    "network.static.domain" "bad.com").1 (by decide)

theorem groupCons_cons (x y : Int) (g : List Int) (gs : List (List Int)) :
    groupCons x ((y :: g) :: gs) =
      if get_verdict x = get_verdict y then (x :: y :: g) :: gs
      else [x] :: (y :: g) :: gs := rfl

theorem groupRuns_mem_ne_nil : ∀ (l : List Int), ∀ g ∈ groupRuns l, g ≠ [] := by
  intro l
  induction l with
  | nil => intro g hg; simp [groupRuns] at hg
  | cons x xs ih =>
    intro g hg
    rw [groupRuns] at hg
    rcases hgr : groupRuns xs with _ | ⟨y0, gs⟩
    · rw [hgr] at hg
      simp only [groupCons] at hg
      simp at hg
      simp [hg]
    · rcases y0 with _ | ⟨y, g0⟩
      · rw [hgr] at hg
        simp only [groupCons] at hg
        simp at hg
        simp [hg]
      · rw [hgr, groupCons_cons] at hg
        by_cases hv : get_verdict x = get_verdict y
        · rw [if_pos hv] at hg
          rcases List.mem_cons.mp hg with rfl | h
          · simp
          · exact ih g (hgr ▸ List.mem_cons_of_mem _ h)
        · rw [if_neg hv] at hg
          rcases List.mem_cons.mp hg with rfl | h
          · simp
          · exact ih g (hgr ▸ h)

theorem mem_join_groupRuns : ∀ (l : List Int) (x : Int),
    (∃ g ∈ groupRuns l, x ∈ g) ↔ x ∈ l := by
  intro l
  induction l with
  | nil => intro x; simp [groupRuns]
  | cons a xs ih =>
    intro x
    rw [groupRuns]
    rcases hgr : groupRuns xs with _ | ⟨y0, gs⟩
    · have hxs : xs = [] := by
        rcases xs with _ | ⟨b, t⟩
        · rfl
        · obtain ⟨g, hg, _⟩ := (ih b).mpr (List.mem_cons_self b t)
          rw [hgr] at hg
          simp at hg
      subst hxs
      simp [groupCons]
    · rcases y0 with _ | ⟨y, g0⟩
      · exact absurd rfl (groupRuns_mem_ne_nil xs [] (hgr ▸ List.mem_cons_self [] gs))
      · rw [groupCons_cons]
        by_cases hv : get_verdict a = get_verdict y
        · rw [if_pos hv]
          constructor
          · rintro ⟨g, hg, hx⟩
            rcases List.mem_cons.mp hg with rfl | h
            · rcases List.mem_cons.mp hx with rfl | h2
              · exact List.mem_cons_self _ _
              · exact List.mem_cons_of_mem a
                  ((ih x).mp ⟨y :: g0, hgr ▸ List.mem_cons_self _ _, h2⟩)
            · exact List.mem_cons_of_mem a
                ((ih x).mp ⟨g, hgr ▸ List.mem_cons_of_mem _ h, hx⟩)
          · intro hx
            rcases List.mem_cons.mp hx with rfl | h
            · exact ⟨x :: y :: g0, List.mem_cons_self _ _, List.mem_cons_self _ _⟩
            · obtain ⟨g, hg, hxg⟩ := (ih x).mpr h
              rw [hgr] at hg
              rcases List.mem_cons.mp hg with rfl | h2
              · exact ⟨a :: y :: g0, List.mem_cons_self _ _, List.mem_cons_of_mem a hxg⟩
              · exact ⟨g, List.mem_cons_of_mem _ h2, hxg⟩
        · rw [if_neg hv]
          constructor
          · rintro ⟨g, hg, hx⟩
            rcases List.mem_cons.mp hg with rfl | h
            · simp at hx
              simp [hx]
            · exact List.mem_cons_of_mem a ((ih x).mp ⟨g, hgr ▸ h, hx⟩)
          · intro hx
            rcases List.mem_cons.mp hx with rfl | h
            · exact ⟨[x], List.mem_cons_self _ _, List.mem_cons_self _ _⟩
            · obtain ⟨g, hg, hxg⟩ := (ih x).mpr h
              exact ⟨g, List.mem_cons_of_mem _ (hgr ▸ hg), hxg⟩

theorem groupRuns_uniform : ∀ (l : List Int), ∀ g ∈ groupRuns l, ∀ x ∈ g,
    get_verdict x = groupVerdict g := by
  intro l
  induction l with
  | nil => intro g hg; simp [groupRuns] at hg
  | cons a xs ih =>
    intro g hg x hx
    rw [groupRuns] at hg
    rcases hgr : groupRuns xs with _ | ⟨y0, gs⟩
    · rw [hgr] at hg
      simp only [groupCons] at hg
      simp at hg
      subst hg
      simp at hx
      simp [hx, groupVerdict]
    · rcases y0 with _ | ⟨y, g0⟩
      · exact absurd rfl (groupRuns_mem_ne_nil xs [] (hgr ▸ List.mem_cons_self [] gs))
      · rw [hgr, groupCons_cons] at hg
        by_cases hv : get_verdict a = get_verdict y
        · rw [if_pos hv] at hg
          rcases List.mem_cons.mp hg with rfl | h
          · rcases List.mem_cons.mp hx with rfl | h2
            · simp [groupVerdict]
            · have := ih (y :: g0) (hgr ▸ List.mem_cons_self _ _) x h2
              simpa [groupVerdict, hv] using this
          · exact ih g (hgr ▸ List.mem_cons_of_mem _ h) x hx
        · rw [if_neg hv] at hg
          rcases List.mem_cons.mp hg with rfl | h
          · simp at hx
            simp [hx, groupVerdict]
          · exact ih g (hgr ▸ h) x hx

theorem groupRuns_cons_shape (x : Int) (xs : List Int) :
    ∃ g gs, groupRuns (x :: xs) = (x :: g) :: gs := by
  rw [groupRuns]
  rcases groupRuns xs with _ | ⟨y0, gs⟩
  · exact ⟨[], [], rfl⟩
  · rcases y0 with _ | ⟨y, g0⟩
    · exact ⟨[], [], rfl⟩
    · rw [groupCons_cons]
      by_cases hv : get_verdict x = get_verdict y
      · rw [if_pos hv]
        exact ⟨y :: g0, gs, rfl⟩
      · rw [if_neg hv]
        exact ⟨[], (y :: g0) :: gs, rfl⟩

theorem get_verdict_eq_iff (a b : Int) :
    get_verdict a = get_verdict b ↔ vRank a = vRank b := by
  rw [get_verdict, get_verdict, vRank, vRank]
  split_ifs <;> simp_all

theorem vRank_anti (a b : Int) (h : b ≤ a) : vRank a ≤ vRank b := by
  rw [vRank, vRank]
  split_ifs <;> omega

theorem groupRuns_rank_pairwise : ∀ (l : List Int),
    List.Sorted (fun a b : Int => b ≤ a) l →
    List.Pairwise (fun g h => vRank (g.headD 0) < vRank (h.headD 0)) (groupRuns l) := by
  intro l
  induction l with
  | nil => intro _; simp [groupRuns]
  | cons a xs ih =>
    intro hs
    have hs' : List.Sorted (fun a b : Int => b ≤ a) xs := hs.of_cons
    have hle : ∀ y ∈ xs, y ≤ a := fun y hy => List.rel_of_sorted_cons hs y hy
    have ihp := ih hs'
    rw [groupRuns]
    rcases hgr : groupRuns xs with _ | ⟨y0, gs⟩
    · simp [groupCons]
    · rcases y0 with _ | ⟨y, g0⟩
      · exact absurd rfl (groupRuns_mem_ne_nil xs [] (hgr ▸ List.mem_cons_self [] gs))
      · rw [hgr] at ihp
        rw [groupCons_cons]
        by_cases hv : get_verdict a = get_verdict y
        · rw [if_pos hv]
          refine List.Pairwise.cons ?_ (ihp.sublist (List.sublist_cons_self _ _))
          intro b hb
          have hr := List.rel_of_pairwise_cons ihp hb
          have hre : vRank a = vRank y := (get_verdict_eq_iff a y).mp hv
          simpa [hre] using hr
        · rw [if_neg hv]
          have hy_mem : y ∈ xs := by
            rcases xs with _ | ⟨x', xs'⟩
            · rw [groupRuns] at hgr; cases hgr
            · obtain ⟨g', gs', hshape⟩ := groupRuns_cons_shape x' xs'
              rw [hshape] at hgr
              injection hgr with h1 _
              injection h1 with hxy _
              exact hxy ▸ List.mem_cons_self x' xs'
          have hrank_le : vRank a ≤ vRank y := vRank_anti a y (hle y hy_mem)
          have hrank_ne : vRank a ≠ vRank y :=
            fun he => hv ((get_verdict_eq_iff a y).mpr he)
          have hlt : vRank a < vRank y := lt_of_le_of_ne hrank_le hrank_ne
          refine List.Pairwise.cons ?_ ihp
          intro b hb
          rcases List.mem_cons.mp hb with rfl | h
          · simpa using hlt
          · have hr := List.rel_of_pairwise_cons ihp h
            simp only [List.headD_cons]
            calc vRank a < vRank y := hlt
              _ < vRank (b.headD 0) := by simpa using hr

theorem foldl_max_spec : ∀ (t : List Int) (a : Int),
    (t.foldl max a = a ∨ t.foldl max a ∈ t) ∧ a ≤ t.foldl max a ∧
    ∀ x ∈ t, x ≤ t.foldl max a := by
  intro t
  induction t with
  | nil => intro a; exact ⟨Or.inl rfl, le_refl a, by simp⟩
  | cons b t ih =>
    intro a
    obtain ⟨hm, hle, hall⟩ := ih (max a b)
    simp only [List.foldl_cons]
    refine ⟨?_, ?_, ?_⟩
    · rcases hm with h | h
      · rcases max_choice a b with hc | hc
        · exact Or.inl (h.trans hc)
        · exact Or.inr (List.mem_cons_self b t |> fun _ => by
            rw [h, hc]; exact List.mem_cons_self b t)
      · exact Or.inr (List.mem_cons_of_mem b h)
    · exact le_trans (le_max_left a b) hle
    · intro x hx
      rcases List.mem_cons.mp hx with rfl | h
      · exact le_trans (le_max_right a x) hle
      · exact hall x h

theorem maxScore_spec (g : List Int) (h : g ≠ []) :
    maxScore g ∈ g ∧ ∀ x ∈ g, x ≤ maxScore g := by
  rcases g with _ | ⟨x, t⟩
  · exact absurd rfl h
  · rw [maxScore]
    obtain ⟨hm, hle, hall⟩ := foldl_max_spec t x
    refine ⟨?_, ?_⟩
    · rcases hm with he | he
      · rw [he]; exact List.mem_cons_self x t
      · exact List.mem_cons_of_mem x he
    · intro z hz
      rcases List.mem_cons.mp hz with rfl | hzt
      · exact hle
      · exact hall z hzt

/-- C8: the verdict of a processed external link is derived from its
heuristic score by two thresholds — at least 1000 is Malicious, at least
500 Suspicious, lower Informative (so exactly 1000 is Malicious, exactly
500 Suspicious and 0 Informative) — and the sort-then-group of the source
partitions the links by verdict (one group per verdict, each group
containing exactly the links of its verdict), with the reported group
heuristic being the member with the maximum score. -/
theorem C8_link_verdicts :
    (get_verdict 1000 = "Malicious" ∧ get_verdict 500 = "Suspicious" ∧
     get_verdict 0 = "Informative")
    ∧ ∀ scores : List Int,
      (∀ x, x ∈ scores ↔ ∃ g ∈ verdictGroups scores, x ∈ g)
      ∧ (∀ g ∈ verdictGroups scores, ∀ x ∈ g, get_verdict x = groupVerdict g)
      ∧ ((verdictGroups scores).map groupVerdict).Nodup
      ∧ (∀ g ∈ verdictGroups scores, maxScore g ∈ g ∧ ∀ x ∈ g, x ≤ maxScore g) := by
  refine ⟨⟨by decide, by decide, by decide⟩, fun scores => ⟨?_, ?_, ?_, ?_⟩⟩
  · intro x
    rw [verdictGroups]
    rw [mem_join_groupRuns]
    exact ⟨fun h => (List.perm_insertionSort _ scores).symm.mem_iff.mp h,
      fun h => (List.perm_insertionSort _ scores).mem_iff.mp h⟩
  · exact groupRuns_uniform _
  · have hp := groupRuns_rank_pairwise _ (List.sorted_insertionSort _ scores)
    rw [List.Nodup, List.pairwise_map]
    refine hp.imp ?_
    intro g h hlt he
    rw [groupVerdict, groupVerdict] at he
    rw [(get_verdict_eq_iff _ _).mp he] at hlt
    omega
  · intro g hg
    exact maxScore_spec g (groupRuns_mem_ne_nil _ g hg)

/-- Witness for C8 at a concrete input: in the grouping of scores
[500, 1000], the maximal score of the Malicious group [1000] is a member
of it. -/
theorem C8_link_verdicts_witness : maxScore [1000] ∈ ([1000] : List Int) :=
  ((C8_link_verdicts.2 [500, 1000]).2.2.2 [1000] (by decide)).1

theorem splitDots_ne_nil : ∀ (l : List Char), splitDots l ≠ [] := by
  intro l
  rcases l with _ | ⟨c, t⟩
  · simp [splitDots]
  · rw [splitDots]
    by_cases hc : c = '.'
    · simp [hc]
    · rw [if_neg hc]
      rcases splitDots t with _ | ⟨l0, ls0⟩
      · simp
      · simp

theorem valid_domain_headOk (host : List Char) (h : is_valid_domain host = true) :
    hostHeadOk host = true := by
  rcases host with _ | ⟨c, r⟩
  · simp [is_valid_domain, splitDots] at h
  · by_cases hc : c = '.'
    · subst hc
      simp only [is_valid_domain, splitDots, if_pos rfl] at h
      simp at h
    · rcases hsd : splitDots r with _ | ⟨l0, ls0⟩
      · exact absurd hsd (splitDots_ne_nil r)
      · have hlabels : splitDots (c :: r) = (c :: l0) :: ls0 := by
          rw [splitDots, if_neg hc, hsd]
        simp only [is_valid_domain, Bool.and_eq_true, decide_eq_true_eq,
          List.all_eq_true] at h
        have hfirst := h.1.1.2 (c :: l0) (by rw [hlabels]; exact List.mem_cons_self _ _)
        simp only [Bool.and_eq_true, List.all_eq_true] at hfirst
        have hcc := hfirst.2 c (List.mem_cons_self c l0)
        rw [hostHeadOk]
        rcases Bool.or_eq_true .. |>.mp hcc with h1 | h1
        · rcases Bool.or_eq_true .. |>.mp h1 with h2 | h2
          · simp [h2]
          · simp [h2]
        · simp [h1]

theorem atonAssemble_some (L : List (Option Nat)) (q : IPv4Quad)
    (h : atonAssemble L = some q) :
    ∃ a b c d, L = [some a, some b, some c, some d] ∧ q = (a, b, c, d) ∧
      a ≤ 255 ∧ b ≤ 255 ∧ c ≤ 255 ∧ d ≤ 255 := by
  rcases L with _ | ⟨_ | a, t0⟩
  · simp [atonAssemble] at h
  · simp [atonAssemble] at h
  rcases t0 with _ | ⟨_ | b, t1⟩
  · simp [atonAssemble] at h
  · simp [atonAssemble] at h
  rcases t1 with _ | ⟨_ | c, t2⟩
  · simp [atonAssemble] at h
  · simp [atonAssemble] at h
  rcases t2 with _ | ⟨_ | d, t3⟩
  · simp [atonAssemble] at h
  · simp [atonAssemble] at h
  rcases t3 with _ | ⟨e, t4⟩
  · simp only [atonAssemble] at h
    split_ifs at h with hr
    · simp only [Option.some.injEq] at h
      exact ⟨a, b, c, d, rfl, h.symm, hr.1, hr.2.1, hr.2.2.1, hr.2.2.2⟩
  · simp [atonAssemble] at h

theorem inet_aton_headOk (host : List Char) (q : IPv4Quad)
    (h : inet_aton host = some q) : hostHeadOk host = true := by
  rw [inet_aton] at h
  obtain ⟨a, b, c0, d, hL, _, _⟩ := atonAssemble_some _ q h
  rcases host with _ | ⟨c, r⟩
  · rw [show splitDots [] = [[]] from rfl] at hL
    simp only [List.map_cons, List.map_nil] at hL
    have : atonPart [] = some a := (List.cons.injEq .. ▸ hL).1
    simp [atonPart] at this
  · by_cases hc : c = '.'
    · subst hc
      rw [show splitDots ('.' :: r) = [] :: splitDots r from by rw [splitDots]; simp] at hL
      simp only [List.map_cons] at hL
      have : atonPart [] = some a := (List.cons.injEq .. ▸ hL).1
      simp [atonPart] at this
    · rcases hsd : splitDots r with _ | ⟨l0, ls0⟩
      · exact absurd hsd (splitDots_ne_nil r)
      · rw [show splitDots (c :: r) = (c :: l0) :: ls0 from by
          rw [splitDots, if_neg hc, hsd]] at hL
        simp only [List.map_cons] at hL
        have hpart : atonPart (c :: l0) = some a := (List.cons.injEq .. ▸ hL).1
        rw [atonPart] at hpart
        split_ifs at hpart with hcond
        · have hdig : c.isDigit = true := by
            have := hcond.2.1
            simp only [List.all_cons, Bool.and_eq_true] at this
            exact this.1
          rw [hostHeadOk]
          simp [hdig]

theorem inet_aton_valid (host : List Char) (q : IPv4Quad)
    (h : inet_aton host = some q) : is_valid_ip q = true := by
  rw [inet_aton] at h
  obtain ⟨a, b, c, d, _, hq, h1, h2, h3, h4⟩ := atonAssemble_some _ q h
  rw [hq, is_valid_ip]
  simp only [decide_eq_true_eq]
  exact ⟨h1, h2, h3, h4⟩

theorem parse_uri_ok_classify (s : String) (tok : List Char) (url : UrlParts)
    (hft : firstToken s = some tok) (hsp : urlsplitE tok = .ok url) :
    parse_uri s = .ok (classifyUrl url) := by
  simp only [parse_uri, hft, hsp]

theorem classifyUrl_domain (url : UrlParts) (hscheme : url.scheme ≠ [])
    (hhost : hostnameOf url.netloc ≠ [])
    (hdom : is_valid_domain (hostnameOf url.netloc) = true) :
    classifyUrl url =
      (urlTextOf url, "network.static.domain", String.mk (hostnameOf url.netloc)) := by
  have hOk := valid_domain_headOk _ hdom
  simp only [classifyUrl]
  rw [if_neg (by push_neg; exact ⟨hscheme, hhost, hOk⟩), if_pos hdom]

theorem classifyUrl_ip (url : UrlParts) (q : IPv4Quad) (hscheme : url.scheme ≠ [])
    (hhost : hostnameOf url.netloc ≠ [])
    (hdomf : is_valid_domain (hostnameOf url.netloc) = false)
    (haton : inet_aton (hostnameOf url.netloc) = some q)
    (hres : is_ip_reserved q = false) :
    classifyUrl url = (urlTextOf url, "network.static.ip", quadStr q) := by
  have hOk := inet_aton_headOk _ q haton
  simp only [classifyUrl]
  rw [if_neg (by push_neg; exact ⟨hscheme, hhost, hOk⟩), if_neg (by simp [hdomf])]
  simp only [haton]
  rw [if_pos ⟨inet_aton_valid _ q haton, by simp [hres]⟩]

theorem classifyUrl_rejected (url : UrlParts)
    (hdomf : is_valid_domain (hostnameOf url.netloc) = false)
    (hq : ∀ q, inet_aton (hostnameOf url.netloc) = some q →
      is_valid_ip q = false ∨ is_ip_reserved q = true) :
    ∃ u, classifyUrl url = (u, "", "") := by
  by_cases hrej : (url.scheme = [] ∨ hostnameOf url.netloc = [] ∨
      ¬ hostHeadOk (hostnameOf url.netloc))
  · refine ⟨"", ?_⟩
    simp only [classifyUrl]
    rw [if_pos hrej]
  · refine ⟨urlTextOf url, ?_⟩
    simp only [classifyUrl]
    rw [if_neg hrej, if_neg (by simp [hdomf])]
    rcases haton : inet_aton (hostnameOf url.netloc) with _ | q
    · rfl
    · rcases hq q haton with h | h
      · simp [h]
      · simp [h]

/-- C1: for every input whose first whitespace-delimited token parses to a
URI with a scheme and hostname, a syntactically valid domain name yields
hostname kind `network.static.domain`, a valid non-reserved IPv4 address
yields kind `network.static.ip`, and otherwise both the hostname kind and
the hostname are empty; in particular `http://example.com/a/b` classifies
as the domain `example.com`, `http://192.0.2.1/x` as the IP `192.0.2.1`,
and the reserved `http://127.0.0.1/x` returns an empty hostname. -/
theorem C1_parse_uri_classification :
    (∀ (s : String) (tok : List Char) (url : UrlParts),
      firstToken s = some tok → urlsplitE tok = .ok url →
      url.scheme ≠ [] → hostnameOf url.netloc ≠ [] →
      (is_valid_domain (hostnameOf url.netloc) = true →
        parse_uri s = .ok (urlTextOf url, "network.static.domain",
          String.mk (hostnameOf url.netloc)))
      ∧ (∀ q, is_valid_domain (hostnameOf url.netloc) = false →
          inet_aton (hostnameOf url.netloc) = some q → is_ip_reserved q = false →
          parse_uri s = .ok (urlTextOf url, "network.static.ip", quadStr q))
      ∧ (is_valid_domain (hostnameOf url.netloc) = false →
          (∀ q, inet_aton (hostnameOf url.netloc) = some q →
            is_valid_ip q = false ∨ is_ip_reserved q = true) →
          ∃ u, parse_uri s = .ok (u, "", "")))
    ∧ parse_uri "http://example.com/a/b" =
        .ok ("http://example.com/a/b", "network.static.domain", "example.com")
    ∧ parse_uri "http://192.0.2.1/x" =
        .ok ("http://192.0.2.1/x", "network.static.ip", "192.0.2.1")
    ∧ parse_uri "http://127.0.0.1/x" = .ok ("http://127.0.0.1/x", "", "") := by
  refine ⟨fun s tok url hft hsp hscheme hhost => ⟨?_, ?_, ?_⟩, by decide, by decide, by decide⟩
  · intro hdom
    rw [parse_uri_ok_classify s tok url hft hsp,
      classifyUrl_domain url hscheme hhost hdom]
  · intro q hdomf haton hres
    rw [parse_uri_ok_classify s tok url hft hsp,
      classifyUrl_ip url q hscheme hhost hdomf haton hres]
  · intro hdomf hq
    obtain ⟨u, hu⟩ := classifyUrl_rejected url hdomf hq
    exact ⟨u, by rw [parse_uri_ok_classify s tok url hft hsp, hu]⟩

/-- Witness for C1 at a concrete input: the token and split result of
`http://example.com/a/b`, classified as a domain. -/
theorem C1_parse_uri_classification_witness :
    parse_uri "http://os.example.net/p" =
      .ok ("http://os.example.net/p", "network.static.domain", "os.example.net") := by
  have h := (C1_parse_uri_classification.1 "http://os.example.net/p"
    "http://os.example.net/p".data
    ⟨"http".data, "os.example.net".data, "/p".data, [], []⟩
    (by decide) (by decide) (by decide) (by decide)).1 (by decide)
  rw [h]
  decide

/-- Counterexample for C9: `parse_uri` propagates a parse failure. For the
str input `http://℀/x` the netloc is non-ASCII and invalid under NFKC
normalization, so `urlsplit` raises a `ValueError` whose message is not
`"Invalid IPv6 URL"`, and the bare `raise` at line 2299 re-raises it to
the caller instead of returning the empty triple. -/
theorem C9_parse_error_counterexample :
    parse_uri "http://℀/x" = .error .nfkcNetloc := by
  decide

/-- C9 (amended): a URI that fails to parse is recovered locally and
treated as no evidence only when the failure is the `"Invalid IPv6 URL"`
error; any other parse failure is re-raised to the caller. A bytes input
whose token does not decode as ASCII is also recovered as no evidence. -/
theorem C9_parse_error_recovery :
    (∀ (s : String) (tok : List Char), firstToken s = some tok →
      urlsplitE tok = .error .invalidIPv6 → parse_uri s = .ok ("", "", ""))
    ∧ (∀ (s : String) (tok : List Char) (e : UrlError), firstToken s = some tok →
      urlsplitE tok = .error e → e ≠ .invalidIPv6 → parse_uri s = .error e)
    ∧ (∀ (bs : List Nat) (tok : List Char),
      firstToken (String.mk (bs.map Char.ofNat)) = some tok →
      tok.all (fun c => c.toNat < 128) = false →
      parse_uri_bytes bs = .ok ("", "", "")) := by
  refine ⟨?_, ?_, ?_⟩
  · intro s tok hft hsp
    simp only [parse_uri, hft, hsp]
  · intro s tok e hft hsp he
    cases e
    · exact absurd rfl he
    · simp only [parse_uri, hft, hsp]
  · intro bs tok hft hascii
    simp only [parse_uri_bytes, hft, hascii]
    simp

/-- Witness for C9 (amended) at a concrete input: the bracket-mismatch
token `http://[abc/x` raises `"Invalid IPv6 URL"`, which is recovered as
the empty triple. -/
theorem C9_parse_error_recovery_witness :
    parse_uri "http://[abc/x" = .ok ("", "", "") :=
  C9_parse_error_recovery.1 "http://[abc/x" "http://[abc/x".data (by decide) (by decide)
